import Mathlib

/-!
Verification development for the ent-comp ECS core.

The repository ships `src/ECS.d.ts`, the TypeScript declaration of the public
surface of the engine; the implementation body is not part of the sources, so
the operational behaviour below is modelled from the specification
(`spec.md`, sections 3, 4, 6 and 7), faithful to its words, while the
declared method signatures (names and return types) are transcribed directly
from `ECS.d.ts`.
-/

namespace EntComp

/-- Modelled from the spec: entity identifiers are opaque integers or strings
(`type EntityId = number | string` in ECS.d.ts). -/
inductive EntityId where
  | num (n : Nat)
  | str (s : String)
deriving DecidableEq, Repr

/-- Modelled from the spec: client-supplied state shapes are opaque to the
core; a state payload is represented as a finite record of named fields. -/
abbrev Data := List (String × Int)

/-- Modelled from the spec: a state record carries the owning entity id as its
immutable `__id` tag, plus the opaque payload. -/
structure StateData where
  __id : EntityId
  data : Data
deriving DecidableEq, Repr

/-- Modelled from the spec: a component definition (name, default state,
optional custom state constructor represented by the template it yields,
`order` defaulting to 99, `multi` flag, and the presence of the four optional
callbacks, whose bodies are opaque to the core). -/
structure ComponentDefinition where
  name : String
  state : Option Data := none
  stateConstructor : Option Data := none
  order : Option Int := none
  multi : Bool := false
  onAdd : Bool := false
  onRemove : Bool := false
  system : Bool := false
  renderSystem : Bool := false
deriving DecidableEq, Repr

/-- Modelled from the spec, section 7: the error taxonomy. -/
inductive ECSError where
  | UnknownEntity
  | UnknownComponent
  | DuplicateComponent
  | InvalidComponentDefinition
  | IndexOutOfRange
deriving DecidableEq, Repr

/-- Observable callback invocations: since callback bodies are opaque, the
model records each invocation as an event. -/
inductive Event where
  | onAddE (comp : String) (ent : EntityId) (st : StateData)
  | onRemoveE (comp : String) (ent : EntityId) (st : StateData)
  | systemE (comp : String)
  | renderE (comp : String)
deriving DecidableEq, Repr

instance {ε α : Type} [DecidableEq ε] [DecidableEq α] : DecidableEq (Except ε α) := fun a b => by
  cases a <;> cases b
  case error.error x y => exact decidable_of_iff (x = y) (by simp)
  case error.ok x y => exact isFalse (by simp)
  case ok.error x y => exact isFalse (by simp)
  case ok.ok x y => exact decidable_of_iff (x = y) (by simp)

/-- Association-list lookup by key (first match). -/
def alookup {α β : Type} [DecidableEq α] (k : α) : List (α × β) → Option β
  | [] => none
  | p :: t => if p.1 = k then some p.2 else alookup k t

/-- Association-list update: replace the first entry with the key, or append a
fresh entry when the key is absent. -/
def aset {α β : Type} [DecidableEq α] (k : α) (v : β) : List (α × β) → List (α × β)
  | [] => [(k, v)]
  | p :: t => if p.1 = k then (k, v) :: t else p :: aset k v t

/-- Association-list erase: remove every entry with the key. -/
def aerase {α β : Type} [DecidableEq α] (k : α) : List (α × β) → List (α × β)
  | [] => []
  | p :: t => if p.1 = k then aerase k t else p :: aerase k t

/-- Per-component storage: for each component name, the ordered association of
entity ids to that entity's ordered collection of state records (a singleton
collection for non-multi components). -/
abbrev Storage := List (String × List (EntityId × List StateData))

/-- Modelled from the spec: the ECS world. `components` holds the registered
definitions in registration order and `comps` is its alias (ECS.d.ts: "Map of
component definitions, alias: comps"); `storage` is the state store;
`systems`/`renderSystems` are the scheduler lists of `(name, order)` pairs
kept in ascending order, stable for equal order. -/
structure World where
  components : List ComponentDefinition
  comps : List ComponentDefinition
  storage : Storage
  entities : List EntityId
  nextId : Nat
  systems : List (String × Int)
  renderSystems : List (String × Int)
deriving DecidableEq, Repr

def initWorld : World :=
  { components := [], comps := [], storage := [], entities := [], nextId := 0,
    systems := [], renderSystems := [] }

/-- Find a registered component definition by name. -/
def findComp (n : String) : List ComponentDefinition → Option ComponentDefinition
  | [] => none
  | c :: t => if c.name = n then some c else findComp n t

def lookupComp (w : World) (n : String) : Option ComponentDefinition :=
  findComp n w.components

def hasCompName (w : World) (n : String) : Bool :=
  (lookupComp w n).isSome

/-- The effective call order of a component (`order` defaults to 99). -/
def defOrder (d : ComponentDefinition) : Int :=
  d.order.getD 99

/-- The `(name, order)` scheduler entries of the components satisfying `flag`,
in registration order. -/
def schedEntries (flag : ComponentDefinition → Bool) : List ComponentDefinition → List (String × Int)
  | [] => []
  | c :: t => if flag c then (c.name, defOrder c) :: schedEntries flag t else schedEntries flag t

def systemEntries : List ComponentDefinition → List (String × Int) :=
  schedEntries (fun d => d.system)

def renderEntries : List ComponentDefinition → List (String × Int) :=
  schedEntries (fun d => d.renderSystem)

/-- Insert a scheduler entry after every entry of less or equal order (the
stable insertion position described by the spec). -/
def insertByOrder (p : String × Int) : List (String × Int) → List (String × Int)
  | [] => [p]
  | q :: t => if q.2 ≤ p.2 then q :: insertByOrder p t else p :: q :: t

/-- Insertion-sort a scheduler list, processing entries in registration order
so that equal orders keep registration order (stable). -/
def insSortAll (l : List (String × Int)) : List (String × Int) :=
  l.foldl (fun acc p => insertByOrder p acc) []

/-- The state collection stored for one component. -/
def compStates (w : World) (n : String) : List (EntityId × List StateData) :=
  (alookup n w.storage).getD []

/-- The ordered state records the entity holds for the component. -/
def recordsOf (w : World) (e : EntityId) (n : String) : List StateData :=
  (alookup e (compStates w n)).getD []

/-- Modelled from the spec: shallow merge of a base record with a client
override (override fields win; fields new in the override are appended). -/
def mergeData (base extra : Data) : Data :=
  base.map (fun p => (p.1, (alookup p.1 extra).getD p.2)) ++
    extra.filter (fun p => (alookup p.1 base).isNone)

/-- Modelled from the spec: build a state record via the custom constructor's
template when present, else the default-state template, overlaid with the
caller's override, and tagged with the owning entity id. -/
def buildState (d : ComponentDefinition) (e : EntityId) (part : Data) : StateData :=
  { __id := e,
    data := mergeData (match d.stateConstructor with
                       | some t => t
                       | none => d.state.getD []) part }

def hasOnRemove (w : World) (n : String) : Bool :=
  match lookupComp w n with
  | some d => d.onRemove
  | none => false

/-- Modelled from the spec: `createComponent` validates the definition (name
non-empty; not already registered; `state`/`stateConstructor` mutually
exclusive), stores it, initializes its empty state collection, and registers
it into the ordered scheduler lists. Returns the name. -/
def createComponent (w : World) (d : ComponentDefinition) :
    Except ECSError (World × String) :=
  if d.name = "" then Except.error ECSError.InvalidComponentDefinition
  else if hasCompName w d.name then Except.error ECSError.DuplicateComponent
  else if d.state.isSome && d.stateConstructor.isSome then
    Except.error ECSError.InvalidComponentDefinition
  else
    Except.ok
      ({ w with
          components := w.components ++ [d],
          comps := w.components ++ [d],
          storage := w.storage ++ [(d.name, [])],
          systems :=
            if d.system then insertByOrder (d.name, defOrder d) w.systems else w.systems,
          renderSystems :=
            if d.renderSystem then insertByOrder (d.name, defOrder d) w.renderSystems
            else w.renderSystems },
        d.name)

/-- Replace every definition named `n` by `d`. -/
def replaceDef (n : String) (d : ComponentDefinition) :
    List ComponentDefinition → List ComponentDefinition
  | [] => []
  | c :: t => if c.name = n then d :: replaceDef n d t else c :: replaceDef n d t

/-- Reset the state collection stored under key `n` to empty. -/
def resetKey (n : String) : Storage → Storage
  | [] => []
  | p :: t => if p.1 = n then (p.1, []) :: resetKey n t else p :: resetKey n t

/-- Modelled from the spec: `overwriteComponent` requires the name to exist,
replaces the stored definition in place and re-sorts the scheduler lists.
Existing state under the old definition is not migrated; per the spec's
design note it is treated as a destructive replace, dropping that state. -/
def overwriteComponent (w : World) (n : String) (d : ComponentDefinition) :
    Except ECSError (World × String) :=
  if hasCompName w n = false then Except.error ECSError.UnknownComponent
  else if d.name = n then
    if d.state.isSome && d.stateConstructor.isSome then
      Except.error ECSError.InvalidComponentDefinition
    else
      Except.ok
        ({ w with
            components := replaceDef n d w.components,
            comps := replaceDef n d w.components,
            storage := resetKey n w.storage,
            systems := insSortAll (systemEntries (replaceDef n d w.components)),
            renderSystems := insSortAll (renderEntries (replaceDef n d w.components)) },
          n)
  else Except.error ECSError.InvalidComponentDefinition

/-- Remove every definition named `n`. -/
def removeDefs (n : String) : List ComponentDefinition → List ComponentDefinition
  | [] => []
  | c :: t => if c.name = n then removeDefs n t else c :: removeDefs n t

/-- The `onRemove` events fired when a whole component is deleted: one per
state record, per entity holding the component. -/
def compRemoveEvents (n : String) : List (EntityId × List StateData) → List Event
  | [] => []
  | q :: t => q.2.map (fun s => Event.onRemoveE n q.1 s) ++ compRemoveEvents n t

/-- Modelled from the spec: `deleteComponent` removes the component's state
from every entity holding it (firing `onRemove` per removed record), removes
the definition from storage and from the scheduler lists; fails with
`UnknownComponent` when the name is not registered. -/
def deleteComponent (w : World) (n : String) :
    Except ECSError (World × List Event) :=
  match lookupComp w n with
  | none => Except.error ECSError.UnknownComponent
  | some d =>
      Except.ok
        ({ w with
            components := removeDefs n w.components,
            comps := removeDefs n w.components,
            storage := aerase n w.storage,
            systems := aerase n w.systems,
            renderSystems := aerase n w.renderSystems },
          if d.onRemove then compRemoveEvents n (compStates w n) else [])

/-- Modelled from the spec: `addComponent` fails with `UnknownComponent` /
`UnknownEntity` as appropriate; for a non-multi component it installs (or, on
re-add, overwrites in place by re-merging) the single state record, for a
multi component it appends a record to the entity's ordered collection; it
fires `onAdd` after the state is installed. -/
def addComponent (w : World) (e : EntityId) (n : String) (part : Data) :
    Except ECSError (World × List Event) :=
  match lookupComp w n with
  | none => Except.error ECSError.UnknownComponent
  | some d =>
      if e ∈ w.entities then
        let st := buildState d e part
        let entry := compStates w n
        let newEntry :=
          if d.multi then aset e (recordsOf w e n ++ [st]) entry
          else aset e [st] entry
        Except.ok
          ({ w with storage := aset n newEntry w.storage },
            if d.onAdd then [Event.onAddE n e st] else [])
      else Except.error ECSError.UnknownEntity

/-- Modelled from the spec: true iff the entity currently holds at least one
state record for the component. -/
def hasComponent (w : World) (e : EntityId) (n : String) : Bool :=
  !(recordsOf w e n).isEmpty

/-- Modelled from the spec: `removeComponent` removes the entity's state
record (all records, for a multi component), firing `onRemove` per record
first; it is a no-op when the entity lacks the component and fails with
`UnknownComponent` on an unregistered name. -/
def removeComponent (w : World) (e : EntityId) (n : String) :
    Except ECSError (World × List Event) :=
  match lookupComp w n with
  | none => Except.error ECSError.UnknownComponent
  | some d =>
      Except.ok
        ({ w with storage := aset n (aerase e (compStates w n)) w.storage },
          if d.onRemove then (recordsOf w e n).map (fun s => Event.onRemoveE n e s) else [])

/-- Modelled from the spec: `removeMultiComponent` removes exactly the record
at `index` in the entity's ordered collection, compacting the remainder so
indices stay contiguous; it fails with `UnknownComponent` on an unregistered
name, is a no-op on a non-multi component, and fails with `IndexOutOfRange`
on a bad index. -/
def removeMultiComponent (w : World) (e : EntityId) (n : String) (i : Nat) :
    Except ECSError (World × List Event) :=
  match lookupComp w n with
  | none => Except.error ECSError.UnknownComponent
  | some d =>
      if d.multi then
        let l := recordsOf w e n
        if h : i < l.length then
          Except.ok
            ({ w with storage := aset n (aset e (l.eraseIdx i) (compStates w n)) w.storage },
              if d.onRemove then [Event.onRemoveE n e (l.get ⟨i, h⟩)] else [])
        else Except.error ECSError.IndexOutOfRange
      else Except.ok (w, [])

/-- Result shape of `getState` (ECS.d.ts: state object, array of state
objects, or `undefined`). -/
inductive StateResult where
  | absent
  | single (s : StateData)
  | multiple (l : List StateData)
deriving DecidableEq, Repr

/-- Modelled from the spec: `getState` returns the single state record for a
non-multi component, the ordered collection for a multi component, or absent
when the entity lacks the component. -/
def getState (w : World) (e : EntityId) (n : String) : StateResult :=
  match lookupComp w n with
  | none => StateResult.absent
  | some d =>
      match alookup e (compStates w n) with
      | none => StateResult.absent
      | some [] => StateResult.absent
      | some (s :: rest) =>
          if d.multi then StateResult.multiple (s :: rest) else StateResult.single s

/-- The state records carried by a `getState` result. -/
def statesOf : StateResult → List StateData
  | StateResult.absent => []
  | StateResult.single s => [s]
  | StateResult.multiple l => l

/-- Remove every occurrence of an entity id from a list. -/
def removeEnt (e : EntityId) : List EntityId → List EntityId
  | [] => []
  | x :: t => if x = e then removeEnt e t else x :: removeEnt e t

/-- The `onRemove` events fired by `deleteEntity`: one per state record the
entity holds under a component whose definition has an `onRemove` callback. -/
def deleteEntityEvents (e : EntityId) (onRem : String → Bool) : Storage → List Event
  | [] => []
  | p :: t =>
      (if onRem p.1 then ((alookup e p.2).getD []).map (fun s => Event.onRemoveE p.1 e s)
       else []) ++ deleteEntityEvents e onRem t

/-- Modelled from the spec: `deleteEntity` removes, for every component the
entity holds, its state (firing `onRemove` per record), then releases the id;
it is no-op safe on an id that does not exist. -/
def deleteEntity (w : World) (e : EntityId) : World × List Event :=
  ({ w with
      storage := w.storage.map (fun p => (p.1, aerase e p.2)),
      entities := removeEnt e w.entities },
    deleteEntityEvents e (fun n => hasOnRemove w n) w.storage)

/-- Fold of `addComponent` used by `createEntity` (errors cannot occur after
the upfront registration check; they are absorbed to keep the fold total). -/
def applyAdd (e : EntityId) (acc : World × List Event) (n : String) : World × List Event :=
  match addComponent acc.1 e n [] with
  | Except.ok p => (p.1, acc.2 ++ p.2)
  | Except.error _ => acc

/-- Modelled from the spec: `createEntity` allocates a fresh monotonically
increasing id (the model never recycles ids, one of the policies the spec
allows), optionally attaches each named component with default state, and
returns the id; it fails when any name is not registered. -/
def createEntity (w : World) (names : List String) :
    Except ECSError (World × EntityId × List Event) :=
  if names.all (fun n => hasCompName w n) then
    Except.ok
      (((names.foldl (applyAdd (EntityId.num w.nextId))
          ({ w with
              entities := w.entities ++ [EntityId.num w.nextId],
              nextId := w.nextId + 1 }, [])).1,
        EntityId.num w.nextId,
        (names.foldl (applyAdd (EntityId.num w.nextId))
          ({ w with
              entities := w.entities ++ [EntityId.num w.nextId],
              nextId := w.nextId + 1 }, [])).2))
  else Except.error ECSError.UnknownComponent

/-- Modelled from the spec: `tick` invokes every registered `system` callback
once, in the scheduler's order; callback bodies are opaque, so the model
records the invocation sequence as events and the callbacks' own state
mutations are outside the model boundary. -/
def tick (w : World) (dt : Int) : World × List Event :=
  (w, w.systems.map (fun p => Event.systemE p.1))

/-- Modelled from the spec: `render` invokes every registered `renderSystem`
callback once, in the scheduler's order. -/
def render (w : World) (dt : Int) : World × List Event :=
  (w, w.renderSystems.map (fun p => Event.renderE p.1))

/-- Modelled from the spec: the closure returned by `getStateAccessor` closes
over the component's internal storage, not over a snapshot; its captured data
is just the component name, and the world in hand at the time it was obtained
leaves no trace in it. -/
structure StateAccessor where
  comp : String
deriving DecidableEq, Repr

/-- Modelled from the spec: the closure returned by `getComponentAccessor`. -/
structure ComponentAccessor where
  comp : String
deriving DecidableEq, Repr

def getStateAccessor (w : World) (n : String) : StateAccessor :=
  { comp := n }

def getComponentAccessor (w : World) (n : String) : ComponentAccessor :=
  { comp := n }

/-- Applying a state accessor at a later time reads the live storage. -/
def applyStateAccessor (a : StateAccessor) (w : World) (e : EntityId) : StateResult :=
  getState w e a.comp

/-- Applying a component accessor at a later time reads the live storage. -/
def applyComponentAccessor (a : ComponentAccessor) (w : World) (e : EntityId) : Bool :=
  hasComponent w e a.comp

/-- A public operation of the ECS surface, for reasoning about arbitrary
operation sequences. -/
inductive Op where
  | createC (d : ComponentDefinition)
  | overwriteC (n : String) (d : ComponentDefinition)
  | deleteC (n : String)
  | createE (names : List String)
  | deleteE (e : EntityId)
  | addC (e : EntityId) (n : String) (part : Data)
  | removeC (e : EntityId) (n : String)
  | removeMC (e : EntityId) (n : String) (i : Nat)
  | tickOp (dt : Int)
  | renderOp (dt : Int)

/-- Apply one operation; a failing operation leaves the world unchanged. -/
def applyOp (w : World) : Op → World
  | Op.createC d =>
      match createComponent w d with
      | Except.ok p => p.1
      | Except.error _ => w
  | Op.overwriteC n d =>
      match overwriteComponent w n d with
      | Except.ok p => p.1
      | Except.error _ => w
  | Op.deleteC n =>
      match deleteComponent w n with
      | Except.ok p => p.1
      | Except.error _ => w
  | Op.createE names =>
      match createEntity w names with
      | Except.ok p => p.1
      | Except.error _ => w
  | Op.deleteE e => (deleteEntity w e).1
  | Op.addC e n part =>
      match addComponent w e n part with
      | Except.ok p => p.1
      | Except.error _ => w
  | Op.removeC e n =>
      match removeComponent w e n with
      | Except.ok p => p.1
      | Except.error _ => w
  | Op.removeMC e n i =>
      match removeMultiComponent w e n i with
      | Except.ok p => p.1
      | Except.error _ => w
  | Op.tickOp dt => (tick w dt).1
  | Op.renderOp dt => (render w dt).1

/-- The world reached by running a sequence of operations from a fresh ECS
instance. -/
def runOps (ops : List Op) : World :=
  ops.foldl applyOp initWorld

/-- The TypeScript types that appear as return types in ECS.d.ts. `thisT` is
the ECS instance itself (`this`). -/
inductive TSType where
  | voidT
  | thisT
  | boolT
  | stringT
  | entityIdT
  | stateResultT
  | statesListT
  | stateAccessorT
  | componentAccessorT
deriving DecidableEq, Repr

/-- Transcribed from src/ECS.d.ts: the declared return type of each public
method of the ECS class. -/
def declaredReturn : String → Option TSType
  | "createEntity" => some TSType.entityIdT
  | "deleteEntity" => some TSType.thisT
  | "createComponent" => some TSType.stringT
  | "overwriteComponent" => some TSType.stringT
  | "deleteComponent" => some TSType.thisT
  | "addComponent" => some TSType.thisT
  | "hasComponent" => some TSType.boolT
  | "removeComponent" => some TSType.thisT
  | "getState" => some TSType.stateResultT
  | "getStatesList" => some TSType.statesListT
  | "getStateAccessor" => some TSType.stateAccessorT
  | "getComponentAccessor" => some TSType.componentAccessorT
  | "tick" => some TSType.thisT
  | "render" => some TSType.thisT
  | "removeMultiComponent" => some TSType.thisT
  | _ => none

/-- Number of occurrences of an event in an event list. -/
def countEv (a : Event) : List Event → Nat
  | [] => 0
  | x :: t => (if x = a then 1 else 0) + countEv a t

/-- The call order of a registered component name (99 when unregistered). -/
def compOrder (w : World) (n : String) : Int :=
  match lookupComp w n with
  | some d => defOrder d
  | none => 99

/-- The call order of the component an event belongs to. -/
def evOrder (w : World) : Event → Int
  | Event.onAddE n _ _ => compOrder w n
  | Event.onRemoveE n _ _ => compOrder w n
  | Event.systemE n => compOrder w n
  | Event.renderE n => compOrder w n

/-- Key-level erase, used to transport key lists across `aerase`/`removeDefs`. -/
def eraseKey (n : String) : List String → List String
  | [] => []
  | x :: t => if x = n then eraseKey n t else x :: eraseKey n t

/-- Number of scheduler entries carrying a given component name. -/
def countKey (n : String) : List (String × Int) → Nat
  | [] => 0
  | p :: t => (if p.1 = n then 1 else 0) + countKey n t

/-- Registered component names are non-empty. -/
def NamesOk (w : World) : Prop :=
  ∀ c ∈ w.components, ¬ c.name = ""

/-- The storage holds exactly one collection per registered component, in
registration order. -/
def KeysOk (w : World) : Prop :=
  w.storage.map (fun p => p.1) = w.components.map (fun c => c.name)

/-- Registered component names are pairwise distinct. -/
def NodupOk (w : World) : Prop :=
  (w.components.map (fun c => c.name)).Nodup

/-- Every stored state record is tagged with its owning entity id, and a
non-multi component stores at most one record per entity. -/
def StorageOk (w : World) : Prop :=
  ∀ p ∈ w.storage, ∀ q ∈ p.2,
    (∀ s ∈ q.2, s.__id = q.1) ∧
    (∀ d, lookupComp w p.1 = some d → d.multi = false → q.2.length ≤ 1)

/-- The `comps` field is the alias of `components`. -/
def CompsOk (w : World) : Prop :=
  w.comps = w.components

/-- The scheduler lists are the stable ordered insertion of the registered
components carrying the respective callback, in registration order. -/
def SysOk (w : World) : Prop :=
  w.systems = insSortAll (systemEntries w.components) ∧
  w.renderSystems = insSortAll (renderEntries w.components)

def WF (w : World) : Prop :=
  CompsOk w ∧ NamesOk w ∧ KeysOk w ∧ NodupOk w ∧ StorageOk w ∧ SysOk w

/-! ### Association-list lemmas -/

theorem alookup_aset_self {α β : Type} [DecidableEq α] (k : α) (v : β) (l : List (α × β)) :
    alookup k (aset k v l) = some v := by
  induction l with
  | nil => simp [aset, alookup]
  | cons p t ih =>
      by_cases h : p.1 = k
      · simp [aset, h, alookup]
      · simp [aset, h, alookup, ih]

theorem alookup_aset_ne {α β : Type} [DecidableEq α] {k k' : α} (v : β) (l : List (α × β))
    (h : k' ≠ k) : alookup k' (aset k v l) = alookup k' l := by
  induction l with
  | nil => simp [aset, alookup, Ne.symm h]
  | cons p t ih =>
      by_cases hp : p.1 = k
      · have h2 : ¬ p.1 = k' := by rw [hp]; exact Ne.symm h
        simp [aset, hp, alookup, Ne.symm h, h2]
      · simp [aset, hp, alookup, ih]

theorem mem_aset {α β : Type} [DecidableEq α] {k : α} {v : β} {l : List (α × β)}
    {p : α × β} (h : p ∈ aset k v l) : p = (k, v) ∨ p ∈ l := by
  induction l with
  | nil => simpa [aset] using h
  | cons q t ih =>
      by_cases hq : q.1 = k
      · simp only [aset, hq, if_pos, List.mem_cons] at h
        rcases h with h | h
        · exact Or.inl h
        · exact Or.inr (List.mem_cons_of_mem _ h)
      · simp only [aset, hq, if_neg, not_false_iff, List.mem_cons] at h
        rcases h with h | h
        · exact Or.inr (by simp [h])
        · rcases ih h with h' | h'
          · exact Or.inl h'
          · exact Or.inr (List.mem_cons_of_mem _ h')

theorem keys_aset_of_mem {α β : Type} [DecidableEq α] {k : α} (v : β) {l : List (α × β)}
    (h : k ∈ l.map (fun p => p.1)) :
    (aset k v l).map (fun p => p.1) = l.map (fun p => p.1) := by
  induction l with
  | nil => simp at h
  | cons q t ih =>
      by_cases hq : q.1 = k
      · simp [aset, hq]
      · simp only [List.map_cons, List.mem_cons] at h
        rcases h with h | h
        · exact absurd h.symm hq
        · simp [aset, hq, ih h]

theorem alookup_mem {α β : Type} [DecidableEq α] {k : α} {v : β} {l : List (α × β)}
    (h : alookup k l = some v) : (k, v) ∈ l := by
  induction l with
  | nil => simp [alookup] at h
  | cons p t ih =>
      by_cases hp : p.1 = k
      · simp only [alookup, hp, if_pos] at h
        cases h
        subst hp
        simp
      · simp only [alookup, hp, if_neg, not_false_iff] at h
        exact List.mem_cons_of_mem _ (ih h)

theorem alookup_aerase_self {α β : Type} [DecidableEq α] (k : α) (l : List (α × β)) :
    alookup k (aerase k l) = none := by
  induction l with
  | nil => simp [aerase, alookup]
  | cons p t ih =>
      by_cases hp : p.1 = k
      · simp [aerase, hp, ih]
      · simp [aerase, hp, alookup, ih]

theorem alookup_aerase_ne {α β : Type} [DecidableEq α] {k k' : α} (l : List (α × β))
    (h : k' ≠ k) : alookup k' (aerase k l) = alookup k' l := by
  induction l with
  | nil => simp [aerase]
  | cons p t ih =>
      by_cases hp : p.1 = k
      · simp [aerase, hp, alookup, Ne.symm h, ih]
      · simp [aerase, hp, alookup, ih]

theorem mem_aerase {α β : Type} [DecidableEq α] {k : α} {l : List (α × β)}
    {p : α × β} (h : p ∈ aerase k l) : p ∈ l := by
  induction l with
  | nil => simpa [aerase] using h
  | cons q t ih =>
      by_cases hq : q.1 = k
      · simp only [aerase, hq, if_pos] at h
        exact List.mem_cons_of_mem _ (ih h)
      · simp only [aerase, hq, if_neg, not_false_iff, List.mem_cons] at h
        rcases h with h | h
        · simp [h]
        · exact List.mem_cons_of_mem _ (ih h)

theorem alookup_map_snd {α β : Type} [DecidableEq α] (k : α) (g : List (EntityId × List StateData) → β)
    (l : List (α × List (EntityId × List StateData))) :
    alookup k (l.map (fun p => (p.1, g p.2))) = (alookup k l).map g := by
  induction l with
  | nil => simp [alookup]
  | cons p t ih =>
      by_cases hp : p.1 = k
      · simp [alookup, hp]
      · simp [alookup, hp, ih]

/-! ### Lemmas about component lookup -/

theorem findComp_some {n : String} {l : List ComponentDefinition} {c : ComponentDefinition}
    (h : findComp n l = some c) : c ∈ l ∧ c.name = n := by
  induction l with
  | nil => simp [findComp] at h
  | cons d t ih =>
      by_cases hd : d.name = n
      · simp only [findComp, hd, if_pos] at h
        cases h
        exact ⟨List.mem_cons_self _ _, hd⟩
      · simp only [findComp, hd, if_neg, not_false_iff] at h
        exact ⟨List.mem_cons_of_mem _ (ih h).1, (ih h).2⟩

theorem findComp_append (n : String) (l₁ l₂ : List ComponentDefinition) :
    findComp n (l₁ ++ l₂) =
      match findComp n l₁ with
      | some c => some c
      | none => findComp n l₂ := by
  induction l₁ with
  | nil => simp [findComp]
  | cons d t ih =>
      by_cases hd : d.name = n
      · simp [findComp, hd]
      · simp [findComp, hd, ih]

theorem findComp_isSome_of_mem {n : String} {l : List ComponentDefinition}
    (h : n ∈ l.map (fun c => c.name)) : (findComp n l).isSome := by
  induction l with
  | nil => simp at h
  | cons d t ih =>
      simp only [List.map_cons, List.mem_cons] at h
      by_cases hd : d.name = n
      · simp [findComp, hd]
      · rcases h with h | h
        · exact absurd h.symm hd
        · simp [findComp, hd, ih h]

theorem findComp_removeDefs (n m : String) (l : List ComponentDefinition) :
    findComp m (removeDefs n l) = if m = n then none else findComp m l := by
  induction l with
  | nil => simp [removeDefs, findComp]
  | cons d t ih =>
      by_cases hd : d.name = n
      · by_cases hm : m = n
        · subst hm
          simp [removeDefs, hd, findComp, ih]
        · simp [removeDefs, hd, findComp, ih, hm, Ne.symm hm]
      · by_cases hdm : d.name = m
        · have hmn : ¬ m = n := fun hh => hd (hdm.trans hh)
          simp [removeDefs, hd, findComp, hdm, hmn]
        · simp [removeDefs, hd, findComp, hdm, ih]

theorem mem_removeDefs {n : String} {l : List ComponentDefinition} {c : ComponentDefinition}
    (h : c ∈ removeDefs n l) : c ∈ l := by
  induction l with
  | nil => simpa [removeDefs] using h
  | cons d t ih =>
      by_cases hd : d.name = n
      · simp only [removeDefs, hd, if_pos] at h
        exact List.mem_cons_of_mem _ (ih h)
      · simp only [removeDefs, hd, if_neg, not_false_iff, List.mem_cons] at h
        rcases h with h | h
        · simp [h]
        · exact List.mem_cons_of_mem _ (ih h)

theorem findComp_replaceDef (n m : String) (d : ComponentDefinition)
    (hd : d.name = n) (l : List ComponentDefinition) (h : ¬ m = n) :
    findComp m (replaceDef n d l) = findComp m l := by
  induction l with
  | nil => simp [replaceDef]
  | cons c t ih =>
      by_cases hc : c.name = n
      · simp [replaceDef, hc, findComp, hd, Ne.symm h, ih]
      · by_cases hcm : c.name = m
        · have hmn : ¬ m = n := fun hh => hc (hcm.trans hh)
          simp [replaceDef, hc, hcm, hmn, findComp]
        · simp [replaceDef, hc, findComp, hcm, ih]

theorem mem_replaceDef {n : String} {d : ComponentDefinition} {l : List ComponentDefinition}
    {c : ComponentDefinition} (h : c ∈ replaceDef n d l) : c = d ∨ c ∈ l := by
  induction l with
  | nil => simpa [replaceDef] using h
  | cons q t ih =>
      by_cases hq : q.name = n
      · simp only [replaceDef, hq, if_pos, List.mem_cons] at h
        rcases h with h | h
        · exact Or.inl h
        · rcases ih h with h' | h'
          · exact Or.inl h'
          · exact Or.inr (List.mem_cons_of_mem _ h')
      · simp only [replaceDef, hq, if_neg, not_false_iff, List.mem_cons] at h
        rcases h with h | h
        · exact Or.inr (by simp [h])
        · rcases ih h with h' | h'
          · exact Or.inl h'
          · exact Or.inr (List.mem_cons_of_mem _ h')

theorem names_replaceDef (n : String) (d : ComponentDefinition) (hd : d.name = n)
    (l : List ComponentDefinition) :
    (replaceDef n d l).map (fun c => c.name) = l.map (fun c => c.name) := by
  induction l with
  | nil => simp [replaceDef]
  | cons c t ih =>
      by_cases hc : c.name = n
      · simp [replaceDef, hc, hd, ih]
      · simp [replaceDef, hc, ih]

theorem keys_resetKey (n : String) (l : Storage) :
    (resetKey n l).map (fun p => p.1) = l.map (fun p => p.1) := by
  induction l with
  | nil => simp [resetKey]
  | cons p t ih =>
      by_cases hp : p.1 = n
      · simp [resetKey, hp, ih]
      · simp [resetKey, hp, ih]

theorem alookup_resetKey (n m : String) (l : Storage) :
    alookup m (resetKey n l) = if m = n then (alookup m l).map (fun _ => ([] : List (EntityId × List StateData))) else alookup m l := by
  induction l with
  | nil => simp [resetKey, alookup]
  | cons p t ih =>
      by_cases hp : p.1 = n
      · by_cases hm : m = n
        · simp [resetKey, hp, alookup, hp.trans hm.symm, hm, ih]
        · simp [resetKey, hp, alookup, hm, Ne.symm hm, ih]
      · by_cases hpm : p.1 = m
        · have : ¬ m = n := fun hh => hp (hpm.trans hh)
          simp [resetKey, hp, alookup, hpm, this]
        · simp [resetKey, hp, alookup, hpm, ih]


theorem keys_aerase (n : String) {β : Type} (l : List (String × β)) :
    (aerase n l).map (fun p => p.1) = eraseKey n (l.map (fun p => p.1)) := by
  induction l with
  | nil => simp [aerase, eraseKey]
  | cons p t ih =>
      by_cases hp : p.1 = n
      · simp [aerase, hp, eraseKey, ih]
      · simp [aerase, hp, eraseKey, ih]

theorem names_removeDefs (n : String) (l : List ComponentDefinition) :
    (removeDefs n l).map (fun c => c.name) = eraseKey n (l.map (fun c => c.name)) := by
  induction l with
  | nil => simp [removeDefs, eraseKey]
  | cons c t ih =>
      by_cases hc : c.name = n
      · simp [removeDefs, hc, eraseKey, ih]
      · simp [removeDefs, hc, eraseKey, ih]

theorem eraseKey_sublist (n : String) (l : List String) : (eraseKey n l).Sublist l := by
  induction l with
  | nil => simp [eraseKey]
  | cons x t ih =>
      by_cases hx : x = n
      · simp only [eraseKey, hx, if_pos]
        exact ih.trans (List.sublist_cons_self _ _)
      · simp only [eraseKey, hx, if_neg, not_false_iff]
        exact ih.cons₂ _

theorem mem_eraseIdxList {α : Type} {s : α} : ∀ {l : List α} {i : Nat}, s ∈ l.eraseIdx i → s ∈ l
  | [], i, h => by simpa using h
  | a :: t, 0, h => List.mem_cons_of_mem _ (by simpa using h)
  | a :: t, i + 1, h => by
      simp only [List.eraseIdx, List.mem_cons] at h
      rcases h with h | h
      · simp [h]
      · exact List.mem_cons_of_mem _ (mem_eraseIdxList h)

/-! ### Scheduler lemmas: stable ordered insertion -/


theorem countKey_append (n : String) (l₁ l₂ : List (String × Int)) :
    countKey n (l₁ ++ l₂) = countKey n l₁ + countKey n l₂ := by
  induction l₁ with
  | nil => simp [countKey]
  | cons p t ih => simp [countKey, ih, Nat.add_assoc]

theorem mem_insertByOrder {p x : String × Int} {l : List (String × Int)} :
    x ∈ insertByOrder p l ↔ x = p ∨ x ∈ l := by
  induction l with
  | nil => simp [insertByOrder]
  | cons q t ih =>
      by_cases hq : q.2 ≤ p.2
      · simp only [insertByOrder, hq, if_pos, List.mem_cons, ih]
        tauto
      · simp only [insertByOrder, hq, if_neg, not_false_iff, List.mem_cons]

theorem countKey_insertByOrder (n : String) (p : String × Int) (l : List (String × Int)) :
    countKey n (insertByOrder p l) = (if p.1 = n then 1 else 0) + countKey n l := by
  induction l with
  | nil => simp [insertByOrder, countKey]
  | cons q t ih =>
      by_cases hq : q.2 ≤ p.2
      · simp [insertByOrder, hq, countKey, ih]; omega
      · simp [insertByOrder, hq, countKey]

theorem pairwise_insertByOrder {l : List (String × Int)} (p : String × Int)
    (h : List.Pairwise (fun a b => a.2 ≤ b.2) l) :
    List.Pairwise (fun a b => a.2 ≤ b.2) (insertByOrder p l) := by
  induction l with
  | nil => simp [insertByOrder]
  | cons q t ih =>
      rw [List.pairwise_cons] at h
      by_cases hq : q.2 ≤ p.2
      · simp only [insertByOrder, hq, if_pos, List.pairwise_cons]
        refine ⟨fun y hy => ?_, ih h.2⟩
        rcases mem_insertByOrder.mp hy with hy | hy
        · rw [hy]; exact hq
        · exact h.1 y hy
      · simp only [insertByOrder, hq, if_neg, not_false_iff, List.pairwise_cons]
        push_neg at hq
        refine ⟨fun y hy => ?_, h⟩
        rcases List.mem_cons.mp hy with hy | hy
        · rw [hy]; exact le_of_lt hq
        · exact le_trans (le_of_lt hq) (h.1 y hy)

theorem sublist_insertByOrder (p : String × Int) (l : List (String × Int)) :
    l.Sublist (insertByOrder p l) := by
  induction l with
  | nil => simp [insertByOrder]
  | cons q t ih =>
      by_cases hq : q.2 ≤ p.2
      · simpa only [insertByOrder, hq, if_pos] using ih.cons₂ q
      · simp only [insertByOrder, hq, if_neg, not_false_iff]
        exact (List.Sublist.refl _).cons _

theorem insertByOrder_front {p : String × Int} {l : List (String × Int)}
    (h : ∀ y ∈ l, ¬ y.2 ≤ p.2) : insertByOrder p l = p :: l := by
  cases l with
  | nil => simp [insertByOrder]
  | cons q t => simp [insertByOrder, h q (List.mem_cons_self _ _)]

theorem aerase_insertByOrder (n : String) (p : String × Int) {l : List (String × Int)}
    (h : List.Pairwise (fun a b => a.2 ≤ b.2) l) :
    aerase n (insertByOrder p l) =
      if p.1 = n then aerase n l else insertByOrder p (aerase n l) := by
  induction l with
  | nil => simp [insertByOrder, aerase]
  | cons q t ih =>
      rw [List.pairwise_cons] at h
      by_cases hq : q.2 ≤ p.2
      · by_cases hqn : q.1 = n
        · simp only [insertByOrder, hq, if_pos, aerase, hqn]
          rw [ih h.2]
        · simp only [insertByOrder, hq, if_pos, aerase, hqn, if_neg, not_false_iff]
          rw [ih h.2]
          by_cases hpn : p.1 = n
          · simp [hpn, aerase, hqn]
          · simp [hpn, aerase, hqn, insertByOrder, hq]
      · by_cases hpn : p.1 = n
        · simp [insertByOrder, hq, aerase, hpn]
        · by_cases hqn : q.1 = n
          · simp only [insertByOrder, hq, if_neg, not_false_iff, aerase, hpn, hqn, if_pos]
            rw [insertByOrder_front]
            intro y hy
            have hyt : y ∈ t := mem_aerase hy
            exact fun hle => hq (le_trans (h.1 y hyt) hle)
          · simp [insertByOrder, hq, aerase, hpn, hqn]

theorem pair_sublist_insertByOrder {p x : String × Int} {l : List (String × Int)}
    (hs : List.Pairwise (fun a b => a.2 ≤ b.2) l) (hm : p ∈ l) (hle : p.2 ≤ x.2) :
    [p, x].Sublist (insertByOrder x l) := by
  induction l with
  | nil => simp at hm
  | cons q t ih =>
      rw [List.pairwise_cons] at hs
      rcases List.mem_cons.mp hm with hm | hm
      · subst hm
        by_cases hq : p.2 ≤ x.2
        · simp only [insertByOrder, hq, if_pos]
          refine List.Sublist.cons₂ _ ?_
          rw [List.singleton_sublist, mem_insertByOrder]
          exact Or.inl rfl
        · exact absurd hle hq
      · by_cases hq : q.2 ≤ x.2
        · simp only [insertByOrder, hq, if_pos]
          exact (ih hs.2 hm).cons _
        · exfalso
          exact hq (le_trans (hs.1 p hm) hle)

theorem insSortAll_append_singleton (l : List (String × Int)) (x : String × Int) :
    insSortAll (l ++ [x]) = insertByOrder x (insSortAll l) := by
  simp [insSortAll, List.foldl_append]

theorem pairwise_insSortAll (l : List (String × Int)) :
    List.Pairwise (fun a b => a.2 ≤ b.2) (insSortAll l) := by
  induction l using List.reverseRecOn with
  | nil => simp [insSortAll]
  | append_singleton l x ih =>
      rw [insSortAll_append_singleton]
      exact pairwise_insertByOrder x ih

theorem countKey_insSortAll (n : String) (l : List (String × Int)) :
    countKey n (insSortAll l) = countKey n l := by
  induction l using List.reverseRecOn with
  | nil => simp [insSortAll, countKey]
  | append_singleton l x ih =>
      rw [insSortAll_append_singleton, countKey_insertByOrder, countKey_append, ih]
      simp [countKey]
      omega

theorem mem_insSortAll {x : String × Int} {l : List (String × Int)} :
    x ∈ insSortAll l ↔ x ∈ l := by
  induction l using List.reverseRecOn with
  | nil => simp [insSortAll]
  | append_singleton l y ih =>
      rw [insSortAll_append_singleton, mem_insertByOrder]
      simp [ih]
      tauto

theorem aerase_append {α β : Type} [DecidableEq α] (k : α) (l₁ l₂ : List (α × β)) :
    aerase k (l₁ ++ l₂) = aerase k l₁ ++ aerase k l₂ := by
  induction l₁ with
  | nil => simp [aerase]
  | cons p t ih =>
      by_cases hp : p.1 = k
      · simp [aerase, hp, ih]
      · simp [aerase, hp, ih]

theorem aerase_insSortAll (n : String) (l : List (String × Int)) :
    aerase n (insSortAll l) = insSortAll (aerase n l) := by
  induction l using List.reverseRecOn with
  | nil => simp [insSortAll, aerase]
  | append_singleton l x ih =>
      rw [insSortAll_append_singleton, aerase_insertByOrder n x (pairwise_insSortAll l),
        aerase_append]
      by_cases hx : x.1 = n
      · simp [hx, aerase, ih]
      · simp [hx, aerase, ih, insSortAll_append_singleton]

theorem pair_sublist_snoc {p q x : String × Int} {l : List (String × Int)}
    (h : [p, q].Sublist (l ++ [x])) : [p, q].Sublist l ∨ (q = x ∧ p ∈ l) := by
  induction l with
  | nil =>
      exfalso
      have := h.length_le
      simp at this
  | cons a t ih =>
      rw [List.cons_append] at h
      cases h with
      | cons _ h' =>
          rcases ih h' with h'' | h''
          · exact Or.inl (h''.cons _)
          · exact Or.inr ⟨h''.1, List.mem_cons_of_mem _ h''.2⟩
      | cons₂ _ h' =>
          rw [List.singleton_sublist, List.mem_append] at h'
          rcases h' with h' | h'
          · exact Or.inl (List.Sublist.cons₂ _ (List.singleton_sublist.mpr h'))
          · simp only [List.mem_singleton] at h'
            exact Or.inr ⟨h', List.mem_cons_self _ _⟩

theorem pair_sublist_insSortAll {p q : String × Int} {l : List (String × Int)}
    (h : [p, q].Sublist l) (hle : p.2 ≤ q.2) : [p, q].Sublist (insSortAll l) := by
  induction l using List.reverseRecOn with
  | nil =>
      exfalso
      have := h.length_le
      simp at this
  | append_singleton l x ih =>
      rw [insSortAll_append_singleton]
      rcases pair_sublist_snoc h with h' | h'
      · exact (ih h').trans (sublist_insertByOrder x _)
      · rcases h' with ⟨hq, hp⟩
        subst hq
        exact pair_sublist_insertByOrder (pairwise_insSortAll l) (mem_insSortAll.mpr hp) hle

/-! ### Scheduler-entry lemmas -/

theorem schedEntries_append (flag : ComponentDefinition → Bool) (l₁ l₂ : List ComponentDefinition) :
    schedEntries flag (l₁ ++ l₂) = schedEntries flag l₁ ++ schedEntries flag l₂ := by
  induction l₁ with
  | nil => simp [schedEntries]
  | cons c t ih =>
      by_cases hc : flag c
      · simp [schedEntries, hc, ih]
      · simp [schedEntries, hc, ih]

theorem schedEntries_removeDefs (flag : ComponentDefinition → Bool) (n : String)
    (l : List ComponentDefinition) :
    schedEntries flag (removeDefs n l) = aerase n (schedEntries flag l) := by
  induction l with
  | nil => simp [removeDefs, schedEntries, aerase]
  | cons c t ih =>
      by_cases hc : c.name = n
      · by_cases hf : flag c
        · simp [removeDefs, hc, schedEntries, hf, aerase, ih]
        · simp [removeDefs, hc, schedEntries, hf, ih]
      · by_cases hf : flag c
        · simp [removeDefs, hc, schedEntries, hf, aerase, ih]
        · simp [removeDefs, hc, schedEntries, hf, ih]

theorem schedEntries_sublist (flag : ComponentDefinition → Bool)
    {s l : List ComponentDefinition} (h : s.Sublist l) :
    (schedEntries flag s).Sublist (schedEntries flag l) := by
  induction h with
  | slnil => simp [schedEntries]
  | cons a h ih =>
      by_cases ha : flag a
      · simp only [schedEntries, ha, if_pos]
        exact ih.cons _
      · simpa only [schedEntries, ha, if_neg, not_false_iff] using ih
  | cons₂ a h ih =>
      by_cases ha : flag a
      · simp only [schedEntries, ha, if_pos]
        exact ih.cons₂ _
      · simpa only [schedEntries, ha, if_neg, not_false_iff] using ih

theorem countKey_schedEntries_zero (flag : ComponentDefinition → Bool) {n : String}
    {l : List ComponentDefinition} (h : n ∉ l.map (fun c => c.name)) :
    countKey n (schedEntries flag l) = 0 := by
  induction l with
  | nil => simp [schedEntries, countKey]
  | cons c t ih =>
      simp only [List.map_cons, List.mem_cons, not_or] at h
      by_cases hf : flag c
      · have hne : ¬ c.name = n := fun hh => h.1 hh.symm
        simp [schedEntries, hf, countKey, hne, ih h.2]
      · simp [schedEntries, hf, ih h.2]

theorem countKey_schedEntries_one (flag : ComponentDefinition → Bool)
    {l : List ComponentDefinition} {d : ComponentDefinition}
    (hnd : (l.map (fun c => c.name)).Nodup) (hd : d ∈ l) (hf : flag d) :
    countKey d.name (schedEntries flag l) = 1 := by
  induction l with
  | nil => simp at hd
  | cons c t ih =>
      simp only [List.map_cons, List.nodup_cons] at hnd
      rcases List.mem_cons.mp hd with hd' | hd'
      · subst hd'
        simp [schedEntries, hf, countKey, countKey_schedEntries_zero flag hnd.1]
      · have hne : ¬ c.name = d.name := by
          intro hh
          exact hnd.1 (hh ▸ List.mem_map_of_mem (fun c => c.name) hd')
        by_cases hfc : flag c
        · simp [schedEntries, hfc, countKey, hne, ih hnd.2 hd']
        · simp [schedEntries, hfc, ih hnd.2 hd']

theorem mem_schedEntries {flag : ComponentDefinition → Bool} {m : String} {o : Int}
    {l : List ComponentDefinition} (h : (m, o) ∈ schedEntries flag l) :
    ∃ c ∈ l, flag c ∧ c.name = m ∧ defOrder c = o := by
  induction l with
  | nil => simp [schedEntries] at h
  | cons c t ih =>
      by_cases hf : flag c
      · simp only [schedEntries, hf, if_pos, List.mem_cons] at h
        rcases h with h | h
        · rw [Prod.mk.injEq] at h
          exact ⟨c, List.mem_cons_self _ _, hf, h.1.symm, h.2.symm⟩
        · obtain ⟨c', hc', hfc', hn, ho⟩ := ih h
          exact ⟨c', List.mem_cons_of_mem _ hc', hfc', hn, ho⟩
      · simp only [schedEntries, hf, if_neg, not_false_iff] at h
        obtain ⟨c', hc', hfc', hn, ho⟩ := ih h
        exact ⟨c', List.mem_cons_of_mem _ hc', hfc', hn, ho⟩

theorem findComp_eq_of_mem_nodup {l : List ComponentDefinition} {c : ComponentDefinition}
    {m : String} (hnd : (l.map (fun c => c.name)).Nodup) (hc : c ∈ l) (hm : c.name = m) :
    findComp m l = some c := by
  induction l with
  | nil => simp at hc
  | cons d t ih =>
      simp only [List.map_cons, List.nodup_cons] at hnd
      rcases List.mem_cons.mp hc with hc' | hc'
      · subst hc'
        simp [findComp, hm]
      · have hne : ¬ d.name = m := by
          intro hh
          exact hnd.1 ((hh.trans hm.symm) ▸ List.mem_map_of_mem (fun c => c.name) hc')
        simp [findComp, hne, ih hnd.2 hc']

/-! ### Well-formedness of a world, preserved by every operation -/


theorem wf_initWorld : WF initWorld := by
  refine ⟨rfl, ?_, rfl, ?_, ?_, rfl, rfl⟩
  · intro c hc
    simp [initWorld] at hc
  · simp [initWorld, NodupOk]
  · intro p hp
    simp [initWorld] at hp

theorem lookupComp_set_storage (w : World) (st : Storage) (m : String) :
    lookupComp { w with storage := st } m = lookupComp w m := rfl

theorem compStates_cases {w : World} {n : String} {q : EntityId × List StateData}
    (h : q ∈ compStates w n) :
    alookup n w.storage = some (compStates w n) := by
  cases halk : alookup n w.storage with
  | none =>
      exfalso
      unfold compStates at h
      rw [halk] at h
      simp at h
  | some ent => simp [compStates, halk]

theorem storageOk_entry {w : World} (hs : StorageOk w) {n : String}
    {q : EntityId × List StateData} (h : q ∈ compStates w n) :
    (∀ s ∈ q.2, s.__id = q.1) ∧
    (∀ d, lookupComp w n = some d → d.multi = false → q.2.length ≤ 1) := by
  have halk := compStates_cases h
  exact hs (n, compStates w n) (alookup_mem halk) q h

theorem recordsOf_id {w : World} (hs : StorageOk w) (e : EntityId) (n : String) :
    ∀ s ∈ recordsOf w e n, s.__id = e := by
  intro s hsm
  unfold recordsOf at hsm
  cases halk : alookup e (compStates w n) with
  | none => rw [halk] at hsm; simp at hsm
  | some l =>
      rw [halk] at hsm
      simp only [Option.getD_some] at hsm
      have hq : (e, l) ∈ compStates w n := alookup_mem halk
      exact (storageOk_entry hs hq).1 s hsm

theorem wf_addComponent {w w' : World} {e : EntityId} {n : String} {part : Data}
    {evs : List Event} (hw : WF w) (h : addComponent w e n part = Except.ok (w', evs)) :
    WF w' := by
  obtain ⟨hco, hna, hke, hnd, hst, hsy⟩ := hw
  unfold addComponent at h
  cases hl : lookupComp w n with
  | none => rw [hl] at h; simp at h
  | some d =>
      rw [hl] at h
      by_cases he : e ∈ w.entities
      · simp only [he, if_pos] at h
        cases h
        obtain ⟨hdm, hdn⟩ := findComp_some hl
        have hkey : n ∈ w.storage.map (fun p => p.1) := by
          rw [hke, ← hdn]
          exact List.mem_map_of_mem _ hdm
        refine ⟨hco, hna, ?_, hnd, ?_, hsy⟩
        · unfold KeysOk
          simpa [keys_aset_of_mem _ hkey] using hke
        · intro p hp q hq
          rw [lookupComp_set_storage]
          rcases mem_aset hp with hp' | hp'
          · -- the updated collection for component n
            cases hp'
            by_cases hm : d.multi
            · simp only [hm, if_true] at hq
              rcases mem_aset hq with hq' | hq'
              · -- the updated entry for entity e
                cases hq'
                constructor
                · intro s hsm
                  simp only [List.mem_append, List.mem_singleton] at hsm
                  rcases hsm with hsm | hsm
                  · exact recordsOf_id hst e n s hsm
                  · rw [hsm]; rfl
                · intro d' hd' hdm'
                  rw [hl] at hd'
                  cases hd'
                  exact absurd hdm' (by simp [hm])
              · exact storageOk_entry hst hq'
            · simp only [hm, if_false, Bool.false_eq_true] at hq
              rcases mem_aset hq with hq' | hq'
              · cases hq'
                constructor
                · intro s hsm
                  simp only [List.mem_singleton] at hsm
                  rw [hsm]; rfl
                · intro d' hd' hdm'
                  rw [hl] at hd'
                  cases hd'
                  simp
              · exact storageOk_entry hst hq'
          · -- an untouched component collection
            exact hst p hp' q hq
      · simp [he] at h

theorem mem_resetKey {n : String} {l : Storage} {p : String × List (EntityId × List StateData)}
    (h : p ∈ resetKey n l) : (p.1 = n ∧ p.2 = []) ∨ (p ∈ l ∧ ¬ p.1 = n) := by
  induction l with
  | nil => simpa [resetKey] using h
  | cons r t ih =>
      by_cases hr : r.1 = n
      · simp only [resetKey, hr, if_pos, List.mem_cons] at h
        rcases h with h | h
        · rw [h]
          exact Or.inl ⟨rfl, rfl⟩
        · exact (ih h).imp id (fun hh => ⟨List.mem_cons_of_mem _ hh.1, hh.2⟩)
      · simp only [resetKey, hr, if_neg, not_false_iff, List.mem_cons] at h
        rcases h with h | h
        · rw [h]
          exact Or.inr ⟨List.mem_cons_self _ _, hr⟩
        · exact (ih h).imp id (fun hh => ⟨List.mem_cons_of_mem _ hh.1, hh.2⟩)

theorem name_mem_of_lookup {w : World} {n : String} {d : ComponentDefinition}
    (h : lookupComp w n = some d) : n ∈ w.components.map (fun c => c.name) := by
  obtain ⟨hm, hn⟩ := findComp_some h
  rw [← hn]
  exact List.mem_map_of_mem _ hm

theorem wf_createComponent {w w' : World} {d : ComponentDefinition} {n : String}
    (hw : WF w) (h : createComponent w d = Except.ok (w', n)) : WF w' := by
  obtain ⟨hco, hna, hke, hnd, hst, hsy⟩ := hw
  unfold createComponent at h
  by_cases h1 : d.name = ""
  · simp [h1] at h
  · rw [if_neg h1] at h
    by_cases h2 : hasCompName w d.name
    · simp [h2] at h
    · rw [if_neg (by simpa using h2)] at h
      by_cases h3 : d.state.isSome && d.stateConstructor.isSome
      · simp [h3] at h
      · rw [if_neg (by simpa using h3)] at h
        cases h
        have hnotmem : d.name ∉ w.components.map (fun c => c.name) := by
          intro hmem
          exact h2 (by simpa [hasCompName, lookupComp] using findComp_isSome_of_mem hmem)
        refine ⟨rfl, ?_, ?_, ?_, ?_, ?_, ?_⟩
        · intro c hc
          rcases List.mem_append.mp hc with hc | hc
          · exact hna c hc
          · simp only [List.mem_singleton] at hc
            rw [hc]
            exact h1
        · unfold KeysOk at hke ⊢
          simp [hke]
        · unfold NodupOk at hnd ⊢
          simp only [List.map_append, List.map_singleton]
          rw [List.nodup_append]
          refine ⟨hnd, List.nodup_singleton _, ?_⟩
          intro a ha hb
          simp only [List.mem_singleton] at hb
          rw [hb] at ha
          exact hnotmem ha
        · intro p hp q hq
          rcases List.mem_append.mp hp with hp | hp
          · have hkey : p.1 ∈ w.components.map (fun c => c.name) := by
              rw [← hke]
              exact List.mem_map_of_mem _ hp
            have hfind : (findComp p.1 w.components).isSome := findComp_isSome_of_mem hkey
            refine ⟨(hst p hp q hq).1, fun d' hd' => (hst p hp q hq).2 d' ?_⟩
            unfold lookupComp at hd' ⊢
            simp only at hd'
            rw [findComp_append] at hd'
            cases hf : findComp p.1 w.components with
            | none => rw [hf] at hfind; simp at hfind
            | some c => rw [hf] at hd'; simpa [hf] using hd'
          · simp only [List.mem_singleton] at hp
            rw [hp] at hq
            simp at hq
        · show (if d.system then insertByOrder (d.name, defOrder d) w.systems else w.systems) = _
          rw [hsy.1]
          unfold systemEntries
          rw [schedEntries_append]
          by_cases hds : d.system
          · simp only [hds, if_pos, schedEntries, insSortAll_append_singleton]
          · simp [hds, schedEntries]
        · show (if d.renderSystem then insertByOrder (d.name, defOrder d) w.renderSystems else w.renderSystems) = _
          rw [hsy.2]
          unfold renderEntries
          rw [schedEntries_append]
          by_cases hds : d.renderSystem
          · simp only [hds, if_pos, schedEntries, insSortAll_append_singleton]
          · simp [hds, schedEntries]

theorem wf_deleteComponent {w w' : World} {n : String} {evs : List Event}
    (hw : WF w) (h : deleteComponent w n = Except.ok (w', evs)) : WF w' := by
  obtain ⟨hco, hna, hke, hnd, hst, hsy⟩ := hw
  unfold deleteComponent at h
  cases hl : lookupComp w n with
  | none => rw [hl] at h; simp at h
  | some d =>
      rw [hl] at h
      cases h
      refine ⟨rfl, ?_, ?_, ?_, ?_, ?_, ?_⟩
      · intro c hc
        exact hna c (mem_removeDefs hc)
      · unfold KeysOk at hke ⊢
        simp only
        rw [keys_aerase, names_removeDefs, hke]
      · unfold NodupOk at hnd ⊢
        simp only
        rw [names_removeDefs]
        exact hnd.sublist (eraseKey_sublist n _)
      · intro p hp q hq
        have hpold : p ∈ w.storage := mem_aerase hp
        refine ⟨(hst p hpold q hq).1, fun d' hd' => (hst p hpold q hq).2 d' ?_⟩
        unfold lookupComp at hd' ⊢
        simp only at hd'
        rw [findComp_removeDefs] at hd'
        by_cases hpn : p.1 = n
        · rw [if_pos hpn] at hd'
          cases hd'
        · rwa [if_neg hpn] at hd'
      · show aerase n w.systems = _
        rw [hsy.1, aerase_insSortAll]
        unfold systemEntries
        rw [schedEntries_removeDefs]
      · show aerase n w.renderSystems = _
        rw [hsy.2, aerase_insSortAll]
        unfold renderEntries
        rw [schedEntries_removeDefs]

theorem wf_overwriteComponent {w w' : World} {n m : String} {d : ComponentDefinition}
    (hw : WF w) (h : overwriteComponent w n d = Except.ok (w', m)) : WF w' := by
  obtain ⟨hco, hna, hke, hnd, hst, hsy⟩ := hw
  unfold overwriteComponent at h
  by_cases h1 : hasCompName w n = false
  · simp [h1] at h
  · rw [if_neg h1] at h
    by_cases h2 : d.name = n
    · rw [if_pos h2] at h
      by_cases h3 : d.state.isSome && d.stateConstructor.isSome
      · simp [h3] at h
      · rw [if_neg (by simpa using h3)] at h
        cases h
        refine ⟨rfl, ?_, ?_, ?_, ?_, rfl, rfl⟩
        · intro c hc
          rcases mem_replaceDef hc with hc | hc
          · cases hl : lookupComp w n with
            | none => exact absurd (by simp [hasCompName, hl]) h1
            | some c₀ =>
                obtain ⟨hm₀, hn₀⟩ := findComp_some hl
                rw [hc, h2]
                rw [← hn₀]
                exact hna c₀ hm₀
          · exact hna c hc
        · unfold KeysOk at hke ⊢
          simp only
          rw [keys_resetKey, names_replaceDef n d h2, hke]
        · unfold NodupOk at hnd ⊢
          simp only
          rw [names_replaceDef n d h2]
          exact hnd
        · intro p hp q hq
          rcases mem_resetKey hp with hp' | hp'
          · rw [hp'.2] at hq
            simp at hq
          · have hcond := hst p hp'.1 q hq
            refine ⟨hcond.1, fun d' hd' => hcond.2 d' ?_⟩
            unfold lookupComp at hd' ⊢
            simp only at hd'
            rwa [findComp_replaceDef n p.1 d h2 _ hp'.2] at hd'
    · simp [h2] at h

theorem wf_removeComponent {w w' : World} {e : EntityId} {n : String} {evs : List Event}
    (hw : WF w) (h : removeComponent w e n = Except.ok (w', evs)) : WF w' := by
  obtain ⟨hco, hna, hke, hnd, hst, hsy⟩ := hw
  unfold removeComponent at h
  cases hl : lookupComp w n with
  | none => rw [hl] at h; simp at h
  | some d =>
      rw [hl] at h
      cases h
      have hkey : n ∈ w.storage.map (fun p => p.1) := by
        rw [hke]
        exact name_mem_of_lookup hl
      refine ⟨hco, hna, ?_, hnd, ?_, hsy⟩
      · unfold KeysOk
        simpa [keys_aset_of_mem _ hkey] using hke
      · intro p hp q hq
        rw [lookupComp_set_storage]
        rcases mem_aset hp with hp' | hp'
        · cases hp'
          exact storageOk_entry hst (mem_aerase hq)
        · exact hst p hp' q hq

theorem wf_removeMultiComponent {w w' : World} {e : EntityId} {n : String} {i : Nat}
    {evs : List Event} (hw : WF w)
    (h : removeMultiComponent w e n i = Except.ok (w', evs)) : WF w' := by
  obtain ⟨hco, hna, hke, hnd, hst, hsy⟩ := hw
  unfold removeMultiComponent at h
  cases hl : lookupComp w n with
  | none => rw [hl] at h; simp at h
  | some d =>
      rw [hl] at h
      by_cases hm : d.multi
      · simp only [hm, if_true] at h
        by_cases hi : i < (recordsOf w e n).length
        · rw [dif_pos hi] at h
          cases h
          have hkey : n ∈ w.storage.map (fun p => p.1) := by
            rw [hke]
            exact name_mem_of_lookup hl
          refine ⟨hco, hna, ?_, hnd, ?_, hsy⟩
          · unfold KeysOk
            simpa [keys_aset_of_mem _ hkey] using hke
          · intro p hp q hq
            rw [lookupComp_set_storage]
            rcases mem_aset hp with hp' | hp'
            · cases hp'
              rcases mem_aset hq with hq' | hq'
              · cases hq'
                constructor
                · intro s hsm
                  exact recordsOf_id hst e n s (mem_eraseIdxList hsm)
                · intro d' hd' hdm'
                  rw [hl] at hd'
                  cases hd'
                  exact absurd hdm' (by simp [hm])
              · exact storageOk_entry hst hq'
            · exact hst p hp' q hq
        · rw [dif_neg hi] at h
          cases h
      · simp only [if_neg hm] at h
        cases h
        exact ⟨hco, hna, hke, hnd, hst, hsy⟩

theorem wf_deleteEntity {w : World} (e : EntityId) (hw : WF w) :
    WF (deleteEntity w e).1 := by
  obtain ⟨hco, hna, hke, hnd, hst, hsy⟩ := hw
  unfold deleteEntity
  refine ⟨hco, hna, ?_, hnd, ?_, hsy⟩
  · unfold KeysOk at hke ⊢
    simpa [List.map_map, Function.comp] using hke
  · intro p hp q hq
    simp only [List.mem_map] at hp
    obtain ⟨r, hr, hrp⟩ := hp
    rw [← hrp] at hq
    simp only at hq
    have hqr : q ∈ r.2 := mem_aerase hq
    have hcond := hst r hr q hqr
    rw [← hrp]
    exact ⟨hcond.1, fun d' hd' => hcond.2 d' hd'⟩

theorem wf_entities_update {w : World} (es : List EntityId) (k : Nat) (hw : WF w) :
    WF { w with entities := es, nextId := k } := hw

theorem wf_foldl_applyAdd (e : EntityId) :
    ∀ (names : List String) (acc : World × List Event), WF acc.1 →
      WF ((names.foldl (applyAdd e) acc)).1
  | [], acc, hw => hw
  | n :: t, acc, hw => by
      rw [List.foldl_cons]
      apply wf_foldl_applyAdd e t
      unfold applyAdd
      cases hadd : addComponent acc.1 e n [] with
      | ok p =>
          simp only
          exact wf_addComponent hw (by rw [hadd])
      | error err => exact hw

theorem wf_createEntity {w w' : World} {names : List String} {e : EntityId}
    {evs : List Event} (hw : WF w) (h : createEntity w names = Except.ok (w', e, evs)) :
    WF w' := by
  unfold createEntity at h
  by_cases hall : names.all (fun n => hasCompName w n)
  · rw [if_pos hall] at h
    cases h
    exact wf_foldl_applyAdd _ names _ (wf_entities_update _ _ hw)
  · rw [if_neg hall] at h
    cases h

theorem wf_applyOp {w : World} (op : Op) (hw : WF w) : WF (applyOp w op) := by
  cases op with
  | createC d =>
      simp only [applyOp]
      cases hop : createComponent w d with
      | ok p => exact wf_createComponent hw (by rw [hop])
      | error err => exact hw
  | overwriteC n d =>
      simp only [applyOp]
      cases hop : overwriteComponent w n d with
      | ok p => exact wf_overwriteComponent hw (by rw [hop])
      | error err => exact hw
  | deleteC n =>
      simp only [applyOp]
      cases hop : deleteComponent w n with
      | ok p => exact wf_deleteComponent hw (by rw [hop])
      | error err => exact hw
  | createE names =>
      simp only [applyOp]
      cases hop : createEntity w names with
      | ok p => exact wf_createEntity hw (by rw [hop])
      | error err => exact hw
  | deleteE e =>
      simp only [applyOp]
      exact wf_deleteEntity e hw
  | addC e n part =>
      simp only [applyOp]
      cases hop : addComponent w e n part with
      | ok p => exact wf_addComponent hw (by rw [hop])
      | error err => exact hw
  | removeC e n =>
      simp only [applyOp]
      cases hop : removeComponent w e n with
      | ok p => exact wf_removeComponent hw (by rw [hop])
      | error err => exact hw
  | removeMC e n i =>
      simp only [applyOp]
      cases hop : removeMultiComponent w e n i with
      | ok p => exact wf_removeMultiComponent hw (by rw [hop])
      | error err => exact hw
  | tickOp dt => exact hw
  | renderOp dt => exact hw

theorem wf_foldl_applyOp : ∀ (ops : List Op) (w : World), WF w → WF (ops.foldl applyOp w)
  | [], w, hw => hw
  | op :: t, w, hw => by
      rw [List.foldl_cons]
      exact wf_foldl_applyOp t _ (wf_applyOp op hw)

/-- Every world reachable from a fresh ECS instance is well-formed. -/
theorem wf_runOps (ops : List Op) : WF (runOps ops) :=
  wf_foldl_applyOp ops initWorld wf_initWorld

/-! ### Operation-level lemmas shared by the claim theorems -/

theorem hasComponent_addComponent {w w' : World} {e : EntityId} {n : String} {part : Data}
    {evs : List Event} (h : addComponent w e n part = Except.ok (w', evs)) :
    hasComponent w' e n = true := by
  unfold addComponent at h
  cases hl : lookupComp w n with
  | none => rw [hl] at h; simp at h
  | some d =>
      rw [hl] at h
      by_cases he : e ∈ w.entities
      · simp only [he, if_pos] at h
        cases h
        unfold hasComponent recordsOf compStates
        simp only
        rw [alookup_aset_self]
        by_cases hm : d.multi
        · simp only [hm, if_true, Option.getD_some]
          rw [alookup_aset_self]
          simp
        · simp only [hm, Bool.false_eq_true, if_false, Option.getD_some]
          rw [alookup_aset_self]
          simp
      · simp [he] at h

theorem recordsOf_empty_of_not_has {w : World} {e : EntityId} {n : String}
    (h : hasComponent w e n = false) : recordsOf w e n = [] := by
  unfold hasComponent at h
  simp only [Bool.not_eq_false'] at h
  exact List.isEmpty_iff.mp h

theorem mem_deleteEntityEvents {e : EntityId} {n : String} {s : StateData}
    (onRem : String → Bool) (hr : onRem n = true) :
    ∀ (st : Storage), s ∈ (alookup e ((alookup n st).getD [])).getD [] →
      Event.onRemoveE n e s ∈ deleteEntityEvents e onRem st
  | [], hs => by simp [alookup] at hs
  | p :: t, hs => by
      unfold deleteEntityEvents
      by_cases hp : p.1 = n
      · rw [List.mem_append]
        left
        rw [hp, hr]
        simp only [if_true]
        have halk : alookup n (p :: t) = some p.2 := by
          show (if p.1 = n then some p.2 else alookup n t) = some p.2
          rw [if_pos hp]
        rw [halk] at hs
        simp only [Option.getD_some] at hs
        exact List.mem_map_of_mem _ hs
      · rw [List.mem_append]
        right
        have halk : alookup n (p :: t) = alookup n t := by
          show (if p.1 = n then some p.2 else alookup n t) = alookup n t
          rw [if_neg hp]
        rw [halk] at hs
        exact mem_deleteEntityEvents onRem hr t hs

theorem mem_compRemoveEvents {e : EntityId} {n : String} {s : StateData} :
    ∀ (ent : List (EntityId × List StateData)), s ∈ (alookup e ent).getD [] →
      Event.onRemoveE n e s ∈ compRemoveEvents n ent
  | [], hs => by simp [alookup] at hs
  | q :: t, hs => by
      unfold compRemoveEvents
      rw [List.mem_append]
      unfold alookup at hs
      by_cases hq : q.1 = e
      · left
        rw [if_pos hq] at hs
        simp only [Option.getD_some] at hs
        rw [← hq]
        exact List.mem_map_of_mem _ hs
      · right
        rw [if_neg hq] at hs
        exact mem_compRemoveEvents t hs

/-! ### Claim C3 -/

/-- C3: for every entity `e`, `deleteEntity e` removes the state of every
component `e` holds, firing that component's `onRemove` callback for each
removed state record, and afterwards `hasComponent e c` is false for every
component `c`. -/
theorem deleteEntity_removes_components (w : World) (e : EntityId) :
    (∀ n, hasComponent (deleteEntity w e).1 e n = false) ∧
    (∀ n s, hasOnRemove w n = true → s ∈ recordsOf w e n →
      Event.onRemoveE n e s ∈ (deleteEntity w e).2) := by
  constructor
  · intro n
    show (!((alookup e ((alookup n
        (w.storage.map (fun p => (p.1, aerase e p.2)))).getD [])).getD []).isEmpty) = false
    rw [alookup_map_snd n (aerase e)]
    cases halk : alookup n w.storage with
    | none => simp [alookup]
    | some ent =>
        show (!((alookup e (aerase e ent)).getD []).isEmpty) = false
        rw [alookup_aerase_self]
        simp
  · intro n s hr hs
    show Event.onRemoveE n e s ∈ deleteEntityEvents e (fun m => hasOnRemove w m) w.storage
    exact mem_deleteEntityEvents _ hr w.storage hs

theorem deleteEntity_removes_components_witness :
    Event.onRemoveE "hp" (EntityId.num 0)
        { __id := EntityId.num 0, data := [("v", 10)] } ∈
      (deleteEntity (runOps
        [Op.createC { name := "hp", state := some [("v", 10)], onRemove := true },
         Op.createE ["hp"]]) (EntityId.num 0)).2 ∧
    hasComponent (deleteEntity (runOps
        [Op.createC { name := "hp", state := some [("v", 10)], onRemove := true },
         Op.createE ["hp"]]) (EntityId.num 0)).1 (EntityId.num 0) "hp" = false :=
  ⟨(deleteEntity_removes_components _ _).2 "hp" _ (by decide) (by decide),
   (deleteEntity_removes_components _ _).1 "hp"⟩

/-! ### Claim C5 -/

/-- C5: the closures returned by `getStateAccessor` and
`getComponentAccessor`, applied to any entity at any later time, return
exactly what `getState` and `hasComponent` return at that time — a live view:
state added after the accessor was obtained is reflected. -/
theorem accessors_are_live_views (w₀ w : World) (n : String) (e : EntityId) :
    applyStateAccessor (getStateAccessor w₀ n) w e = getState w e n ∧
    applyComponentAccessor (getComponentAccessor w₀ n) w e = hasComponent w e n ∧
    (∀ part w' evs, addComponent w e n part = Except.ok (w', evs) →
      applyComponentAccessor (getComponentAccessor w₀ n) w' e = true) := by
  refine ⟨rfl, rfl, ?_⟩
  intro part w' evs h
  exact hasComponent_addComponent h

theorem accessors_are_live_views_witness :
    applyComponentAccessor
        (getComponentAccessor
          (runOps [Op.createC { name := "hp", state := some [("v", 10)] }, Op.createE []])
          "hp")
        (applyOp (runOps [Op.createC { name := "hp", state := some [("v", 10)] }, Op.createE []])
          (Op.addC (EntityId.num 0) "hp" []))
        (EntityId.num 0) = true :=
  (accessors_are_live_views
    (runOps [Op.createC { name := "hp", state := some [("v", 10)] }, Op.createE []])
    (runOps [Op.createC { name := "hp", state := some [("v", 10)] }, Op.createE []])
    "hp" (EntityId.num 0)).2.2 []
    (applyOp (runOps [Op.createC { name := "hp", state := some [("v", 10)] }, Op.createE []])
      (Op.addC (EntityId.num 0) "hp" []))
    [] (by decide)

/-! ### Claim C6 -/

/-- C6: `deleteComponent c` removes `c`'s state from every entity holding it,
firing `onRemove` for each removed record, and afterwards any
`addComponent (e, c, p)` fails with `UnknownComponent`; calling
`deleteComponent` on an unregistered name fails with `UnknownComponent`. -/
theorem deleteComponent_unregisters (w : World) (n : String) :
    (lookupComp w n = none → deleteComponent w n = Except.error ECSError.UnknownComponent) ∧
    (∀ d, lookupComp w n = some d →
      ∃ w' evs, deleteComponent w n = Except.ok (w', evs) ∧
        (∀ e, hasComponent w' e n = false) ∧
        lookupComp w' n = none ∧
        (∀ e part, addComponent w' e n part = Except.error ECSError.UnknownComponent) ∧
        (d.onRemove = true → ∀ e s, s ∈ recordsOf w e n →
          Event.onRemoveE n e s ∈ evs)) := by
  constructor
  · intro hl
    unfold deleteComponent
    rw [hl]
  · intro d hl
    refine ⟨_, _, by unfold deleteComponent; rw [hl], ?_, ?_, ?_, ?_⟩
    · intro e
      show (!((alookup e ((alookup n (aerase n w.storage)).getD [])).getD []).isEmpty) = false
      rw [alookup_aerase_self]
      simp [alookup]
    · show findComp n (removeDefs n w.components) = none
      rw [findComp_removeDefs]
      simp
    · intro e part
      unfold addComponent
      have : lookupComp { w with
          components := removeDefs n w.components,
          comps := removeDefs n w.components,
          storage := aerase n w.storage,
          systems := aerase n w.systems,
          renderSystems := aerase n w.renderSystems } n = none := by
        show findComp n (removeDefs n w.components) = none
        rw [findComp_removeDefs]
        simp
      rw [this]
    · intro hr e s hs
      rw [hr]
      simp only [if_true]
      exact mem_compRemoveEvents _ hs

theorem deleteComponent_unregisters_witness :
    deleteComponent (runOps
        [Op.createC { name := "hp", state := some [("v", 10)], onRemove := true },
         Op.createE ["hp"]]) "nope" = Except.error ECSError.UnknownComponent ∧
    (∃ w' evs, deleteComponent (runOps
        [Op.createC { name := "hp", state := some [("v", 10)], onRemove := true },
         Op.createE ["hp"]]) "hp" = Except.ok (w', evs) ∧
      (∀ e, hasComponent w' e "hp" = false) ∧
      lookupComp w' "hp" = none ∧
      (∀ e part, addComponent w' e "hp" part = Except.error ECSError.UnknownComponent) ∧
      (({ name := "hp", state := some [("v", 10)], onRemove := true } :
          ComponentDefinition).onRemove = true → ∀ e s, s ∈ recordsOf (runOps
        [Op.createC { name := "hp", state := some [("v", 10)], onRemove := true },
         Op.createE ["hp"]]) e "hp" →
        Event.onRemoveE "hp" e s ∈ evs)) :=
  ⟨(deleteComponent_unregisters _ "nope").1 (by decide),
   (deleteComponent_unregisters _ "hp").2 _ (by decide)⟩

/-! ### Claim C8 -/

/-- C8: `createComponent` raises an error immediately and synchronously when
the name is already registered (`DuplicateComponent`) or when both a default
state and a state constructor are supplied
(`InvalidComponentDefinition`); in either error case no definition is
stored. -/
theorem createComponent_rejects_invalid (ops : List Op) (d : ComponentDefinition) :
    (hasCompName (runOps ops) d.name = true →
      createComponent (runOps ops) d = Except.error ECSError.DuplicateComponent) ∧
    (hasCompName (runOps ops) d.name = false →
      d.state.isSome = true → d.stateConstructor.isSome = true →
      createComponent (runOps ops) d = Except.error ECSError.InvalidComponentDefinition) ∧
    (∀ err, createComponent (runOps ops) d = Except.error err →
      applyOp (runOps ops) (Op.createC d) = runOps ops) := by
  refine ⟨?_, ?_, ?_⟩
  · intro hdup
    have hname : ¬ d.name = "" := by
      have hna := (wf_runOps ops).2.1
      unfold hasCompName at hdup
      cases hl : lookupComp (runOps ops) d.name with
      | none => rw [hl] at hdup; simp at hdup
      | some c =>
          obtain ⟨hm, hn⟩ := findComp_some hl
          rw [← hn]
          exact hna c hm
    unfold createComponent
    rw [if_neg hname, if_pos hdup]
  · intro hdup hs hc
    unfold createComponent
    by_cases hname : d.name = ""
    · rw [if_pos hname]
    · rw [if_neg hname, if_neg (by simp [hdup]), if_pos (by simp [hs, hc])]
  · intro err herr
    simp [applyOp, herr]

theorem createComponent_rejects_invalid_witness :
    createComponent
        (runOps [Op.createC { name := "hp", state := some [("v", 10)] }])
        { name := "hp" } = Except.error ECSError.DuplicateComponent ∧
    createComponent
        (runOps [Op.createC { name := "hp", state := some [("v", 10)] }])
        { name := "x", state := some [], stateConstructor := some [] } =
      Except.error ECSError.InvalidComponentDefinition ∧
    applyOp (runOps [Op.createC { name := "hp", state := some [("v", 10)] }])
        (Op.createC { name := "hp" }) =
      runOps [Op.createC { name := "hp", state := some [("v", 10)] }] :=
  ⟨(createComponent_rejects_invalid [Op.createC { name := "hp", state := some [("v", 10)] }]
      { name := "hp" }).1 (by decide),
   (createComponent_rejects_invalid [Op.createC { name := "hp", state := some [("v", 10)] }]
      { name := "x", state := some [], stateConstructor := some [] }).2.1
      (by decide) (by decide) (by decide),
   (createComponent_rejects_invalid [Op.createC { name := "hp", state := some [("v", 10)] }]
      { name := "hp" }).2.2 ECSError.DuplicateComponent (by decide)⟩

/-! ### Claim C10 -/

/-- C10: on every reachable ECS instance the fields `components` and `comps`
are aliases of the same component-definition map: after any sequence of
operations the two fields hold exactly the same entries. -/
theorem comps_aliases_components (ops : List Op) :
    (runOps ops).comps = (runOps ops).components :=
  (wf_runOps ops).1

/-! ### Claim C9 -/

/-- C9 counterexample: the public surface (ECS.d.ts) declares `tick` as
returning `this` — the ECS instance — not void, so the claim that
`deleteEntity`, `addComponent`, `removeComponent`, `removeMultiComponent`,
`tick` and `render` return void as declared is false at `tick`. -/
theorem declared_return_not_void :
    declaredReturn "tick" = some TSType.thisT ∧
    ¬ declaredReturn "tick" = some TSType.voidT := by
  decide

/-- C9 amended: as declared by the public surface (ECS.d.ts), the operations
`deleteEntity`, `addComponent`, `removeComponent`, `removeMultiComponent`,
`tick` and `render` all return the ECS instance (`this`, enabling chaining),
not void. -/
theorem declared_return_is_this :
    declaredReturn "deleteEntity" = some TSType.thisT ∧
    declaredReturn "addComponent" = some TSType.thisT ∧
    declaredReturn "removeComponent" = some TSType.thisT ∧
    declaredReturn "removeMultiComponent" = some TSType.thisT ∧
    declaredReturn "tick" = some TSType.thisT ∧
    declaredReturn "render" = some TSType.thisT := by
  decide

/-! ### Step lemmas for addComponent / removeMultiComponent -/

theorem lookupComp_eq_of_components {w w' : World} (h : w'.components = w.components)
    (n : String) : lookupComp w' n = lookupComp w n := by
  unfold lookupComp
  rw [h]

theorem compStates_eq_of_storage {w' : World} {st : Storage} (h : w'.storage = st)
    (n : String) : compStates w' n = (alookup n st).getD [] := by
  unfold compStates
  rw [h]

theorem addComponent_ok_inv {w w' : World} {e : EntityId} {n : String} {part : Data}
    {evs : List Event} (h : addComponent w e n part = Except.ok (w', evs)) :
    ∃ d, lookupComp w n = some d ∧ e ∈ w.entities := by
  unfold addComponent at h
  cases hl : lookupComp w n with
  | none => rw [hl] at h; simp at h
  | some d =>
      rw [hl] at h
      by_cases he : e ∈ w.entities
      · exact ⟨d, rfl, he⟩
      · simp [he] at h

theorem addComponent_ok_spec {w : World} {e : EntityId} {n : String} (part : Data)
    (d : ComponentDefinition) (hl : lookupComp w n = some d) (he : e ∈ w.entities) :
    ∃ w' evs, addComponent w e n part = Except.ok (w', evs) ∧
      w'.components = w.components ∧ w'.entities = w.entities ∧
      w'.storage = aset n
        (if d.multi then aset e (recordsOf w e n ++ [buildState d e part]) (compStates w n)
         else aset e [buildState d e part] (compStates w n)) w.storage := by
  unfold addComponent
  rw [hl]
  simp only [he, if_pos]
  exact ⟨_, _, rfl, rfl, rfl, rfl⟩

theorem recordsOf_after_aset {w w' : World} {n : String} {e : EntityId}
    {lst : List StateData}
    (hsto : w'.storage = aset n (aset e lst (compStates w n)) w.storage) :
    recordsOf w' e n = lst := by
  unfold recordsOf
  rw [compStates_eq_of_storage hsto, alookup_aset_self]
  simp only [Option.getD_some]
  rw [alookup_aset_self]
  rfl

theorem alookup_after_aset {w w' : World} {n : String} {e : EntityId}
    {lst : List StateData}
    (hsto : w'.storage = aset n (aset e lst (compStates w n)) w.storage) :
    alookup e (compStates w' n) = some lst := by
  rw [compStates_eq_of_storage hsto, alookup_aset_self]
  simp only [Option.getD_some]
  exact alookup_aset_self e lst _

theorem getState_after_aset_multi {w w' : World} {n : String} {e : EntityId}
    {lst : List StateData} {d : ComponentDefinition}
    (hl : lookupComp w n = some d) (hm : d.multi = true)
    (hc : w'.components = w.components)
    (hsto : w'.storage = aset n (aset e lst (compStates w n)) w.storage)
    (hne : lst ≠ []) :
    getState w' e n = StateResult.multiple lst := by
  unfold getState
  rw [lookupComp_eq_of_components hc, hl, alookup_after_aset hsto]
  cases lst with
  | nil => exact absurd rfl hne
  | cons s r => simp [hm]

theorem getState_after_aset_single {w w' : World} {n : String} {e : EntityId}
    {st : StateData} {d : ComponentDefinition}
    (hl : lookupComp w n = some d) (hm : d.multi = false)
    (hc : w'.components = w.components)
    (hsto : w'.storage = aset n (aset e [st] (compStates w n)) w.storage) :
    getState w' e n = StateResult.single st := by
  unfold getState
  rw [lookupComp_eq_of_components hc, hl, alookup_after_aset hsto]
  simp [hm]

theorem addComponent_multi_step {w : World} {e : EntityId} {n : String}
    {d : ComponentDefinition} (part : Data) (hl : lookupComp w n = some d)
    (hm : d.multi = true) (he : e ∈ w.entities) :
    ∃ w' evs, addComponent w e n part = Except.ok (w', evs) ∧
      lookupComp w' n = some d ∧ e ∈ w'.entities ∧
      recordsOf w' e n = recordsOf w e n ++ [buildState d e part] ∧
      getState w' e n = StateResult.multiple (recordsOf w e n ++ [buildState d e part]) := by
  obtain ⟨w', evs, heq, hc, hent, hsto⟩ := addComponent_ok_spec part d hl he
  rw [hm] at hsto
  simp only [if_true] at hsto
  refine ⟨w', evs, heq, ?_, ?_, recordsOf_after_aset hsto, ?_⟩
  · rw [lookupComp_eq_of_components hc]
    exact hl
  · rw [hent]
    exact he
  · exact getState_after_aset_multi hl hm hc hsto (by simp)

theorem addComponent_single_step {w : World} {e : EntityId} {n : String}
    {d : ComponentDefinition} (part : Data) (hl : lookupComp w n = some d)
    (hm : d.multi = false) (he : e ∈ w.entities) :
    ∃ w' evs, addComponent w e n part = Except.ok (w', evs) ∧
      getState w' e n = StateResult.single (buildState d e part) := by
  obtain ⟨w', evs, heq, hc, hent, hsto⟩ := addComponent_ok_spec part d hl he
  rw [hm] at hsto
  simp only [Bool.false_eq_true, if_false] at hsto
  exact ⟨w', evs, heq, getState_after_aset_single hl hm hc hsto⟩

theorem removeMulti_ok_spec {w : World} {e : EntityId} {n : String}
    {d : ComponentDefinition} (hl : lookupComp w n = some d) (hm : d.multi = true)
    (hlen : 0 < (recordsOf w e n).length) :
    ∃ w' evs, removeMultiComponent w e n 0 = Except.ok (w', evs) ∧
      w'.components = w.components ∧
      w'.storage = aset n (aset e ((recordsOf w e n).eraseIdx 0) (compStates w n)) w.storage := by
  unfold removeMultiComponent
  rw [hl]
  simp only [hm, if_true]
  rw [dif_pos hlen]
  exact ⟨_, _, rfl, rfl, rfl⟩

theorem removeMulti_zero_of_two {w : World} {e : EntityId} {n : String}
    {d : ComponentDefinition} {s1 s2 : StateData} (hl : lookupComp w n = some d)
    (hm : d.multi = true) (hr : recordsOf w e n = [s1, s2]) :
    ∃ w' evs, removeMultiComponent w e n 0 = Except.ok (w', evs) ∧
      recordsOf w' e n = [s2] ∧ getState w' e n = StateResult.multiple [s2] := by
  have hlen : 0 < (recordsOf w e n).length := by
    rw [hr]
    exact Nat.succ_pos _
  obtain ⟨w', evs, heq, hc, hsto⟩ := removeMulti_ok_spec hl hm hlen
  rw [hr] at hsto
  refine ⟨w', evs, heq, recordsOf_after_aset hsto, ?_⟩
  exact getState_after_aset_multi hl hm hc hsto (by simp)

/-! ### Claim C1 -/

/-- C1: after a successful `addComponent(e, c, p)`, `hasComponent(e, c)` is
true and every state record returned by `getState(e, c)` carries the owning
entity id as its `__id` tag. -/
theorem addComponent_establishes_state (ops : List Op) (e : EntityId) (n : String)
    (part : Data) (w' : World) (evs : List Event)
    (h : addComponent (runOps ops) e n part = Except.ok (w', evs)) :
    hasComponent w' e n = true ∧
    ∀ s ∈ statesOf (getState w' e n), s.__id = e := by
  have hst : StorageOk (runOps ops) := (wf_runOps ops).2.2.2.2.1
  refine ⟨hasComponent_addComponent h, ?_⟩
  obtain ⟨d, hl, he⟩ := addComponent_ok_inv h
  by_cases hm : d.multi
  · obtain ⟨w₂, evs₂, heq, _, _, _, hgs⟩ := addComponent_multi_step part hl hm he
    rw [heq] at h
    injection h with h2
    rw [Prod.mk.injEq] at h2
    rw [← h2.1]
    intro s hs
    rw [hgs] at hs
    simp only [statesOf, List.mem_append, List.mem_singleton] at hs
    rcases hs with hs | hs
    · exact recordsOf_id hst e n s hs
    · rw [hs]
      rfl
  · have hm' : d.multi = false := by simpa using hm
    obtain ⟨w₂, evs₂, heq, hgs⟩ := addComponent_single_step part hl hm' he
    rw [heq] at h
    injection h with h2
    rw [Prod.mk.injEq] at h2
    rw [← h2.1]
    intro s hs
    rw [hgs] at hs
    simp only [statesOf, List.mem_singleton] at hs
    rw [hs]
    rfl

theorem addComponent_establishes_state_witness :
    hasComponent
        (applyOp (runOps [Op.createC { name := "hp", state := some [("v", 10)] }, Op.createE []])
          (Op.addC (EntityId.num 0) "hp" []))
        (EntityId.num 0) "hp" = true ∧
    ({ __id := EntityId.num 0, data := [("v", 10)] } : StateData).__id = EntityId.num 0 :=
  ⟨(addComponent_establishes_state
      [Op.createC { name := "hp", state := some [("v", 10)] }, Op.createE []]
      (EntityId.num 0) "hp" []
      (applyOp (runOps [Op.createC { name := "hp", state := some [("v", 10)] }, Op.createE []])
        (Op.addC (EntityId.num 0) "hp" []))
      [] (by decide)).1,
   (addComponent_establishes_state
      [Op.createC { name := "hp", state := some [("v", 10)] }, Op.createE []]
      (EntityId.num 0) "hp" []
      (applyOp (runOps [Op.createC { name := "hp", state := some [("v", 10)] }, Op.createE []])
        (Op.addC (EntityId.num 0) "hp" []))
      [] (by decide)).2 _ (by decide)⟩

/-! ### Claim C7 -/

/-- C7: on every reachable world, every stored state record's `__id` tag
equals its owning entity id (so the tag never changes after creation), and a
non-multi component holds at most one state record per entity; in particular
`addComponent` on a non-multi component already attached overwrites the
existing state in place by re-merging rather than erroring, and the state's
`__id` is preserved. -/
theorem state_id_and_single_record_invariant (ops : List Op) :
    StorageOk (runOps ops) ∧
    (∀ e n d part s₀, lookupComp (runOps ops) n = some d → d.multi = false →
      e ∈ (runOps ops).entities →
      getState (runOps ops) e n = StateResult.single s₀ →
      ∃ w' evs, addComponent (runOps ops) e n part = Except.ok (w', evs) ∧
        getState w' e n = StateResult.single (buildState d e part) ∧
        (buildState d e part).__id = s₀.__id) := by
  have hst : StorageOk (runOps ops) := (wf_runOps ops).2.2.2.2.1
  refine ⟨hst, ?_⟩
  intro e n d part s₀ hl hm he hgs
  have hid₀ : s₀.__id = e := by
    unfold getState at hgs
    rw [hl] at hgs
    cases halk : alookup e (compStates (runOps ops) n) with
    | none => rw [halk] at hgs; simp at hgs
    | some lst =>
        rw [halk] at hgs
        cases lst with
        | nil => simp at hgs
        | cons a t =>
            simp only [hm, Bool.false_eq_true, if_false, StateResult.single.injEq] at hgs
            rw [← hgs]
            exact (storageOk_entry hst (alookup_mem halk)).1 a (List.mem_cons_self _ _)
  obtain ⟨w', evs, heq, hgs'⟩ := addComponent_single_step part hl hm he
  refine ⟨w', evs, heq, hgs', ?_⟩
  rw [hid₀]
  rfl

theorem state_id_and_single_record_invariant_witness :
    StorageOk (runOps [Op.createC { name := "hp", state := some [("v", 10)] },
      Op.createE ["hp"]]) ∧
    ∃ w' evs, addComponent (runOps [Op.createC { name := "hp", state := some [("v", 10)] },
        Op.createE ["hp"]]) (EntityId.num 0) "hp" [("v", 5)] = Except.ok (w', evs) ∧
      getState w' (EntityId.num 0) "hp" =
        StateResult.single (buildState { name := "hp", state := some [("v", 10)] }
          (EntityId.num 0) [("v", 5)]) ∧
      (buildState { name := "hp", state := some [("v", 10)] }
        (EntityId.num 0) [("v", 5)]).__id =
        ({ __id := EntityId.num 0, data := [("v", 10)] } : StateData).__id :=
  ⟨(state_id_and_single_record_invariant
      [Op.createC { name := "hp", state := some [("v", 10)] }, Op.createE ["hp"]]).1,
   (state_id_and_single_record_invariant
      [Op.createC { name := "hp", state := some [("v", 10)] }, Op.createE ["hp"]]).2
      (EntityId.num 0) "hp" { name := "hp", state := some [("v", 10)] } [("v", 5)]
      { __id := EntityId.num 0, data := [("v", 10)] }
      (by decide) (by decide) (by decide) (by decide)⟩

/-! ### Claim C4 -/

/-- C4: for a multi component, adding twice yields `getState` as the ordered
two-element collection built from the two partial states; removing index 0
leaves exactly the state built from the second partial state, and the
remaining collection is compacted so indices are contiguous from 0. -/
theorem multi_add_remove_sequence (w : World) (e : EntityId) (n : String)
    (d : ComponentDefinition) (p1 p2 : Data)
    (hl : lookupComp w n = some d) (hm : d.multi = true)
    (he : e ∈ w.entities) (hh : hasComponent w e n = false) :
    ∃ w1 evs1 w2 evs2 w3 evs3,
      addComponent w e n p1 = Except.ok (w1, evs1) ∧
      addComponent w1 e n p2 = Except.ok (w2, evs2) ∧
      getState w2 e n =
        StateResult.multiple [buildState d e p1, buildState d e p2] ∧
      removeMultiComponent w2 e n 0 = Except.ok (w3, evs3) ∧
      getState w3 e n = StateResult.multiple [buildState d e p2] ∧
      recordsOf w3 e n = [buildState d e p2] := by
  have hrec : recordsOf w e n = [] := recordsOf_empty_of_not_has hh
  obtain ⟨w1, evs1, h1, hl1, he1, hrec1, _⟩ := addComponent_multi_step p1 hl hm he
  rw [hrec] at hrec1
  simp only [List.nil_append] at hrec1
  obtain ⟨w2, evs2, h2, hl2, he2, hrec2, hgs2⟩ := addComponent_multi_step p2 hl1 hm he1
  rw [hrec1] at hrec2 hgs2
  obtain ⟨w3, evs3, h3, hrec3, hgs3⟩ := removeMulti_zero_of_two hl2 hm hrec2
  exact ⟨w1, evs1, w2, evs2, w3, evs3, h1, h2, hgs2, h3, hgs3, hrec3⟩

theorem multi_add_remove_sequence_witness :
    ∃ w1 evs1 w2 evs2 w3 evs3,
      addComponent (runOps [Op.createC { name := "tag", multi := true }, Op.createE []])
        (EntityId.num 0) "tag" [("a", 1)] = Except.ok (w1, evs1) ∧
      addComponent w1 (EntityId.num 0) "tag" [("a", 2)] = Except.ok (w2, evs2) ∧
      getState w2 (EntityId.num 0) "tag" =
        StateResult.multiple
          [buildState { name := "tag", multi := true } (EntityId.num 0) [("a", 1)],
           buildState { name := "tag", multi := true } (EntityId.num 0) [("a", 2)]] ∧
      removeMultiComponent w2 (EntityId.num 0) "tag" 0 = Except.ok (w3, evs3) ∧
      getState w3 (EntityId.num 0) "tag" =
        StateResult.multiple
          [buildState { name := "tag", multi := true } (EntityId.num 0) [("a", 2)]] ∧
      recordsOf w3 (EntityId.num 0) "tag" =
        [buildState { name := "tag", multi := true } (EntityId.num 0) [("a", 2)]] :=
  multi_add_remove_sequence
    (runOps [Op.createC { name := "tag", multi := true }, Op.createE []])
    (EntityId.num 0) "tag" { name := "tag", multi := true } [("a", 1)] [("a", 2)]
    (by decide) (by decide) (by decide) (by decide)

/-! ### Claim C2 -/

theorem countEv_map_systemE (m : String) (l : List (String × Int)) :
    countEv (Event.systemE m) (l.map (fun p => Event.systemE p.1)) = countKey m l := by
  induction l with
  | nil => simp [countEv, countKey]
  | cons p t ih =>
      by_cases hp : p.1 = m
      · simp [countEv, countKey, hp, ih]
      · have hne : ¬ (Event.systemE p.1 = Event.systemE m) := by
          simp [hp]
        simp [countEv, countKey, hp, hne, ih]

theorem pairwise_compOrder {w : World} {l : List (String × Int)}
    (hord : ∀ p ∈ l, compOrder w p.1 = p.2)
    (hp : List.Pairwise (fun a b => a.2 ≤ b.2) l) :
    List.Pairwise (fun a b => compOrder w a.1 ≤ compOrder w b.1) l := by
  induction l with
  | nil => simp
  | cons q t ih =>
      rw [List.pairwise_cons] at hp ⊢
      refine ⟨fun y hy => ?_, ih (fun p hp' => hord p (List.mem_cons_of_mem _ hp')) hp.2⟩
      rw [hord q (List.mem_cons_self _ _), hord y (List.mem_cons_of_mem _ hy)]
      exact hp.1 y hy

/-- C2: each call to `tick` invokes each registered component's `system`
callback exactly once, the invocation sequence is in non-decreasing component
order, and components of equal order are invoked in their registration
order. -/
theorem tick_runs_systems_in_order (ops : List Op) (dt : Int) :
    (∀ d ∈ (runOps ops).components, d.system = true →
      countEv (Event.systemE d.name) (tick (runOps ops) dt).2 = 1) ∧
    List.Pairwise (fun a b => evOrder (runOps ops) a ≤ evOrder (runOps ops) b)
      (tick (runOps ops) dt).2 ∧
    (∀ d d', [d, d'].Sublist (runOps ops).components → d.system = true →
      d'.system = true → defOrder d = defOrder d' →
      [Event.systemE d.name, Event.systemE d'.name].Sublist (tick (runOps ops) dt).2) := by
  have hw := wf_runOps ops
  have hnd : NodupOk (runOps ops) := hw.2.2.2.1
  have hsys : (runOps ops).systems = insSortAll (systemEntries (runOps ops).components) :=
    hw.2.2.2.2.2.1
  refine ⟨?_, ?_, ?_⟩
  · intro d hd hds
    show countEv (Event.systemE d.name)
      ((runOps ops).systems.map (fun p => Event.systemE p.1)) = 1
    rw [countEv_map_systemE, hsys, countKey_insSortAll]
    exact countKey_schedEntries_one _ hnd hd hds
  · show List.Pairwise _ ((runOps ops).systems.map (fun p => Event.systemE p.1))
    rw [List.pairwise_map]
    have hs : List.Pairwise (fun a b => a.2 ≤ b.2) (runOps ops).systems := by
      rw [hsys]
      exact pairwise_insSortAll _
    have hord : ∀ p ∈ (runOps ops).systems, compOrder (runOps ops) p.1 = p.2 := by
      intro p hp
      rw [hsys, mem_insSortAll] at hp
      obtain ⟨m, o⟩ := p
      unfold systemEntries at hp
      obtain ⟨c, hc, hfc, hn, ho⟩ := mem_schedEntries hp
      show compOrder (runOps ops) m = o
      unfold compOrder lookupComp
      rw [findComp_eq_of_mem_nodup hnd hc hn]
      exact ho
    exact pairwise_compOrder hord hs
  · intro d d' hsub hds hds' hord
    have h1 : (schedEntries (fun c => c.system) [d, d']).Sublist
        (systemEntries (runOps ops).components) := schedEntries_sublist _ hsub
    have h2 : schedEntries (fun c => c.system) [d, d'] =
        [(d.name, defOrder d), (d'.name, defOrder d')] := by
      simp [schedEntries, hds, hds']
    rw [h2] at h1
    have h3 := pair_sublist_insSortAll h1 (le_of_eq hord)
    rw [← hsys] at h3
    have h4 := h3.map (fun p => Event.systemE p.1)
    show [Event.systemE d.name, Event.systemE d'.name].Sublist
      ((runOps ops).systems.map (fun p => Event.systemE p.1))
    simpa using h4

theorem tick_runs_systems_in_order_witness :
    countEv (Event.systemE "b")
      (tick (runOps
        [Op.createC { name := "a", order := some 1, system := true },
         Op.createC { name := "b", order := some 5, system := true },
         Op.createC { name := "c", order := some 5, system := true },
         Op.createC { name := "d", order := some 9, system := true }]) 0).2 = 1 ∧
    [Event.systemE "b", Event.systemE "c"].Sublist
      (tick (runOps
        [Op.createC { name := "a", order := some 1, system := true },
         Op.createC { name := "b", order := some 5, system := true },
         Op.createC { name := "c", order := some 5, system := true },
         Op.createC { name := "d", order := some 9, system := true }]) 0).2 :=
  ⟨(tick_runs_systems_in_order
      [Op.createC { name := "a", order := some 1, system := true },
       Op.createC { name := "b", order := some 5, system := true },
       Op.createC { name := "c", order := some 5, system := true },
       Op.createC { name := "d", order := some 9, system := true }] 0).1
      { name := "b", order := some 5, system := true } (by decide) (by decide),
   (tick_runs_systems_in_order
      [Op.createC { name := "a", order := some 1, system := true },
       Op.createC { name := "b", order := some 5, system := true },
       Op.createC { name := "c", order := some 5, system := true },
       Op.createC { name := "d", order := some 9, system := true }] 0).2.2
      { name := "b", order := some 5, system := true }
      { name := "c", order := some 5, system := true }
      (by decide) rfl rfl rfl⟩

end EntComp
